import Mathlib

/-!
Verification of the HumanCursor trajectory engine.

Shallow embedding of the Python sources over exact rationals:
  - humancursor/utilities/human_curve_generator.py
  - humancursor/utilities/calculate_and_randomize.py
  - humancursor/utilities/web_adjuster.py
  - humancursor/system_cursor.py

Modelling conventions:
  - Screen points are pairs of rationals (Python floats idealised as ℚ).
  - Python exceptions are modelled with Except PyErr.
  - Random draws are oracle inputs.  Each draw is mapped into the exact
    support of the sampled distribution by construction: random.random()
    becomes the fractional part of an oracle rational, random.uniform(a,b)
    becomes a + (b-a) * random(), integer choices use emod to land in the
    sampled range, and Gaussian noise stays a free oracle value scaled by
    the requested standard deviation.
  - The transcendental primitives math.sqrt, math.log2 and the real
    exponentiations x ** 0.95 / x ** 1.05 have no exact rational form; they
    are oracle functions bundled in RealOracles.  math.sqrt results are
    wrapped in abs since math.sqrt is nonnegative on its domain.
  - Runtime type checks of the Python code (check_if_numeric,
    check_if_list_of_points, isinstance guards) are discharged by typing.
-/

/-- Python exception kinds raised by the embedded code. -/
inductive PyErr where
  | valueError
  | typeError
  | indexError
  | zeroDivisionError
  deriving DecidableEq, Repr

/-- Python int() applied to a float/rational: truncation toward zero. -/
def pyInt (q : ℚ) : ℤ := if q < 0 then ⌈q⌉ else ⌊q⌋

/-- random.random(): fractional part of an oracle seed, support [0,1). -/
def pyRandom (seed : ℚ) : ℚ := Int.fract seed

/-- random.uniform(a, b) = a + (b-a) * random(); support [a, b) exactly. -/
def pyUniform (a b seed : ℚ) : ℚ := a + (b - a) * pyRandom seed

/-- Python list indexing with negative-index wrap-around and IndexError. -/
def pyListGet (l : List α) (i : ℤ) : Except PyErr α :=
  let j : ℤ := if i < 0 then i + l.length else i
  if h : 0 ≤ j ∧ j.toNat < l.length then Except.ok (l.get ⟨j.toNat, h.2⟩)
  else Except.error PyErr.indexError

/-- Core of Python list.insert for a nonnegative position (clamps past the end). -/
def pyInsertAux (x : α) : ℕ → List α → List α
  | 0, l => x :: l
  | _ + 1, [] => [x]
  | n + 1, a :: l => a :: pyInsertAux x n l

/-- Python list.insert(i, x), with negative positions counted from the end. -/
def pyInsert (l : List α) (i : ℤ) (x : α) : List α :=
  pyInsertAux x (if i < 0 then (i + l.length).toNat else i.toNat) l

/-- Insert the same element k times at the same position, as the Python
pause loop does. -/
def insertKTimes (x : α) (pos : ℕ) : ℕ → List α → List α
  | 0, l => l
  | k + 1, l => insertKTimes x pos k (pyInsertAux x pos l)

/-- Python true division, raising ZeroDivisionError. -/
def pydiv (a b : ℚ) : Except PyErr ℚ :=
  if b = 0 then Except.error PyErr.zeroDivisionError else Except.ok (a / b)

/-- Effect-threading map over a list (the Python loops that may raise). -/
def exceptMapM (f : α → Except PyErr β) : List α → Except PyErr (List β)
  | [] => Except.ok []
  | a :: as =>
      match f a with
      | Except.error e => Except.error e
      | Except.ok b =>
          match exceptMapM f as with
          | Except.error e => Except.error e
          | Except.ok bs => Except.ok (b :: bs)

/-- Effect-threading fold over a list. -/
def exceptFoldlM (f : σ → α → Except PyErr σ) : σ → List α → Except PyErr σ
  | s, [] => Except.ok s
  | s, a :: as =>
      match f s a with
      | Except.error e => Except.error e
      | Except.ok s2 => exceptFoldlM f s2 as

/-- Insertion step of a small insertion sort on naturals. -/
def insertSorted (a : ℕ) : List ℕ → List ℕ
  | [] => [a]
  | b :: l => if a ≤ b then a :: b :: l else b :: insertSorted a l

/-- Insertion sort, modelling Python sorted() on the pause indices. -/
def sortNat : List ℕ → List ℕ
  | [] => []
  | a :: l => insertSorted a (sortNat l)

/-- A screen point: pair of rational coordinates. -/
abbrev Point := ℚ × ℚ

/-- Oracles for the transcendental library functions used by the sources:
math.sqrt, math.log2 and the fractional powers x ** 0.95 and x ** 1.05. -/
structure RealOracles where
  sqrtO : ℚ → ℚ
  log2O : ℚ → ℚ
  powH : ℚ → ℚ
  powV : ℚ → ℚ

namespace BezierCalculator

/-- BezierCalculator.binomial's Pascal product loop over range(k). -/
def binomialLoop (n k : ℕ) : ℕ :=
  (List.range k).foldl (fun r i => r * (n - i) / (i + 1)) 1

/-- BezierCalculator.binomial(n, k), cache-free core computation. -/
def binomial (n k : ℕ) : ℕ :=
  if k > n then 0
  else if k = 0 ∨ k = n then 1
  else binomialLoop n (min k (n - k))

/-- The class-level _binomial_cache: association list keyed by (n, k). -/
abbrev BinomialCache := List ((ℕ × ℕ) × ℕ)

/-- Lookup in the binomial cache. -/
def cacheFind (c : BinomialCache) (key : ℕ × ℕ) : Option ℕ :=
  match c.find? (fun e => e.1 = key) with
  | some e => some e.2
  | none => none

/-- BezierCalculator.binomial(n, k) with the (n, k)-keyed cache threaded
explicitly; returns the value and the updated cache. -/
def binomialCached (c : BinomialCache) (n k : ℕ) : ℕ × BinomialCache :=
  if k > n then (0, c)
  else if k = 0 ∨ k = n then (1, c)
  else
    match cacheFind c (n, k) with
    | some v => (v, c)
    | none =>
        let r := binomialLoop n (min k (n - k))
        (r, ((n, k), r) :: c)

/-- Every cache entry stores the true binomial coefficient. -/
def CacheGood (c : BinomialCache) : Prop :=
  ∀ e ∈ c, e.2 = Nat.choose e.1.1 e.1.2

instance (c : BinomialCache) : Decidable (CacheGood c) :=
  inferInstanceAs (Decidable (∀ e ∈ c, e.2 = Nat.choose e.1.1 e.1.2))

/-- BezierCalculator.bernstein_polynomial_point(x, i, n, coeff). -/
def bernstein_polynomial_point (x : ℚ) (i n : ℕ) (coeff : ℕ) : ℚ :=
  let xPow : ℚ := if i = 0 then 1 else if i = 1 then x else x ^ i
  let omPow : ℚ := if n - i = 0 then 1 else if n - i = 1 then 1 - x else (1 - x) ^ (n - i)
  (coeff : ℚ) * xPow * omPow

/-- The curve function built by BezierCalculator.bernstein_polynomial,
evaluated at parameter t (binomial coefficients precomputed per index). -/
def bernsteinAt (pts : List Point) (t : ℚ) : Point :=
  let n := pts.length - 1
  ( ∑ i ∈ Finset.range pts.length,
      (pts.getD i (0, 0)).1 * bernstein_polynomial_point t i n (binomial n i),
    ∑ i ∈ Finset.range pts.length,
      (pts.getD i (0, 0)).2 * bernstein_polynomial_point t i n (binomial n i) )

/-- BezierCalculator.calculate_points_in_curve(n, points). -/
def calculate_points_in_curve (n : ℤ) (pts : List Point) : List Point :=
  if n < 2 then pts.take n.toNat
  else (List.range n.toNat).map (fun (i : ℕ) => bernsteinAt pts ((i : ℚ) / ((n : ℚ) - 1)))

end BezierCalculator

/-- pytweening.easeOutQuad(n) = -n * (n - 2); the default easing of
HumanizeMouseTrajectory.generate_curve. -/
def easeOutQuadQ : ℚ → ℚ := fun t => -t * (t - 2)

/-- pytweening.linear(n) = n (on the domain [0, 1]). -/
def linearQ : ℚ → ℚ := fun t => t

namespace HumanizeMouseTrajectory

/-- The **kwargs dictionary accepted by generate_curve.  One optional field
per keyword that generate_curve reads, plus the key tween that both
high-level call sites pass (and that generate_curve never reads). -/
structure GenKwargs where
  offset_boundary_x : Option ℚ := none
  offset_boundary_y : Option ℚ := none
  left_boundary : Option ℚ := none
  right_boundary : Option ℚ := none
  down_boundary : Option ℚ := none
  up_boundary : Option ℚ := none
  knots_count : Option ℤ := none
  distortion_mean : Option ℚ := none
  distortion_st_dev : Option ℚ := none
  distortion_frequency : Option ℚ := none
  tweening : Option (ℚ → ℚ) := none
  tween : Option (ℚ → ℚ) := none
  target_points : Option ℤ := none
  target_size : Option ℚ := none

/-- kwargs.get("tweening", pytweening.easeOutQuad) — the easing that the
tween step actually applies. -/
def GenKwargs.effTween (kw : GenKwargs) : ℚ → ℚ :=
  kw.tweening.getD easeOutQuadQ

/-- kwargs.get("target_points", 100). -/
def GenKwargs.effTargetPoints (kw : GenKwargs) : ℤ :=
  kw.target_points.getD 100

/-- kwargs.get("target_size", 20) — the size the overshoot step uses. -/
def GenKwargs.effTargetSize (kw : GenKwargs) : ℚ :=
  kw.target_size.getD 20

/-- Oracle seeds for every random draw of one generate_curve run. -/
structure CurveRng where
  wobL : ℚ := 0
  wobR : ℚ := 0
  wobD : ℚ := 0
  wobU : ℚ := 0
  knotX : ℕ → ℤ := fun _ => 0
  knotY : ℕ → ℤ := fun _ => 0
  distortRoll : ℕ → ℚ := fun _ => 0
  noiseX : ℕ → ℚ := fun _ => 0
  noiseY : ℕ → ℚ := fun _ => 0
  overshootRoll : ℚ := 0
  overshootF : ℚ := 0
  overshootU : ℚ := 0
  pauseChoice : Fin 2 := 0
  sampleSeed : ℕ → ℤ := fun _ => 0
  pauseLenSeed : ℕ → ℕ := fun _ => 0

/-- HumanizeMouseTrajectory.generate_internal_knots.  The ±5 % boundary
wobble comes first; np.random.choice(range(l, r)) raises ValueError when
the wobbled boundaries cross (empty range), else draws land in [l, r). -/
def generate_internal_knots (rng : CurveRng) (lb rb db ub : ℚ) (kc : ℤ) :
    Except PyErr (List Point) :=
  let k : ℕ := if kc < 0 then 0 else kc.toNat
  if lb > rb then Except.error PyErr.valueError
  else if db > ub then Except.error PyErr.valueError
  else
    let l2 := pyInt (lb * (1 + pyUniform (-(1/20)) (1/20) rng.wobL))
    let r2 := pyInt (rb * (1 + pyUniform (-(1/20)) (1/20) rng.wobR))
    let d2 := pyInt (db * (1 + pyUniform (-(1/20)) (1/20) rng.wobD))
    let u2 := pyInt (ub * (1 + pyUniform (-(1/20)) (1/20) rng.wobU))
    do
      let xs ←
        if l2 = r2 then Except.ok (List.replicate k l2)
        else if l2 < r2 then
          Except.ok ((List.range k).map (fun i => l2 + rng.knotX i % (r2 - l2)))
        else Except.error PyErr.valueError
      let ys ←
        if d2 = u2 then Except.ok (List.replicate k d2)
        else if d2 < u2 then
          Except.ok ((List.range k).map (fun i => d2 + rng.knotY i % (u2 - d2)))
        else Except.error PyErr.valueError
      Except.ok (List.zipWith (fun (a b : ℤ) => ((a : ℚ), (b : ℚ))) xs ys)

/-- HumanizeMouseTrajectory.generate_points: prepend the origin, append the
destination and sample the Bézier curve at max(|dx|, |dy|, 2) parameters. -/
def generate_points (fromPt toPt : Point) (knots : List Point) :
    Except PyErr (List Point) :=
  let mid : ℚ := max |fromPt.1 - toPt.1| (max |fromPt.2 - toPt.2| 2)
  Except.ok (BezierCalculator.calculate_points_in_curve (pyInt mid)
    ([fromPt] ++ knots ++ [toPt]))

/-- One interior sample of HumanizeMouseTrajectory.distort_points:
centred Gaussian noise scaled by the velocity factor with probability
distortion_frequency; np.random.normal raises ValueError on a negative
scale.  In distort_points itself the endpoints are copied exactly and
distortion_mean (dm) is accepted and ignored, as in the source. -/
def distortOne (o : RealOracles) (rng : CurveRng) (pts : List Point) (ds df : ℚ)
    (j : ℕ) : Except PyErr Point :=
  let i := j + 1
  let p := pts.getD i (0, 0)
  let q := pts.getD (i - 1) (0, 0)
  let velocity := |o.sqrtO ((p.1 - q.1) ^ 2 + (p.2 - q.2) ^ 2)|
  let vf := min (1 + velocity / 50) (5/2)
  if pyRandom (rng.distortRoll j) < df then
    if ds * vf < 0 then Except.error PyErr.valueError
    else Except.ok (p.1 + rng.noiseX j * (ds * vf), p.2 + rng.noiseY j * (ds * vf))
  else Except.ok p

/-- Body of HumanizeMouseTrajectory.distort_points after validation. -/
def distort_points (o : RealOracles) (rng : CurveRng) (pts : List Point)
    (dm ds df : ℚ) : Except PyErr (List Point) :=
  if ¬(0 ≤ df ∧ df ≤ 1) then Except.error PyErr.valueError
  else if pts.length = 0 then Except.error PyErr.indexError
  else do
    let inner ← exceptMapM (distortOne o rng pts ds df) (List.range (pts.length - 2))
    Except.ok ([pts.headD (0, 0)] ++ inner ++ [pts.getLastD (0, 0)])

/-- One iteration of the tween_points re-sampling loop. -/
def tweenOne (o : RealOracles) (pts : List Point) (tw : ℚ → ℚ) (horiz : Bool)
    (tp : ℤ) (i : ℕ) : Except PyErr Point :=
  let base : ℚ := (i : ℚ) / ((tp : ℚ) - 1)
  let ap0 : ℚ := if horiz then tw (o.powH base) else tw (o.powV base)
  let ap : ℚ :=
    if (i : ℤ) < 3 then ap0 * ((i : ℚ) / 3) ^ 3
    else if (i : ℤ) > tp - 4 then
      1 - (((tp : ℚ) - 1 - (i : ℚ)) / 3) ^ 3 * (1 - ap0)
    else ap0
  pyListGet pts (pyInt (ap * ((pts.length : ℚ) - 1)))

/-- HumanizeMouseTrajectory.tween_points: re-sample to target_points points
with the directional exponent, the easing, and the 3-point jerk windows. -/
def tween_points (o : RealOracles) (fromPt toPt : Point) (pts : List Point)
    (tw : ℚ → ℚ) (tp : ℤ) : Except PyErr (List Point) :=
  if tp < 2 then Except.error PyErr.valueError
  else
    let horiz : Bool := decide (|toPt.1 - fromPt.1| > |toPt.2 - fromPt.2|)
    exceptMapM (tweenOne o pts tw horiz tp) (List.range tp.toNat)

/-- HumanizeMouseTrajectory.add_overshoot_correction. -/
def add_overshoot_correction (rng : CurveRng) (fromPt toPt : Point)
    (pts : List Point) (distance ts : ℚ) : List Point :=
  let distance_factor := min (distance / 1000) 1
  let target_factor := max 0 ((50 - ts) / 50)
  let overshoot_prob := min (2/5) ((distance_factor + target_factor) / 2)
  if pyRandom rng.overshootRoll < overshoot_prob then
    let f := pyUniform (103/100) (108/100) rng.overshootF
    let idx := pyInt ((pts.length : ℚ) * pyUniform (4/5) (9/10) rng.overshootU)
    let op : Point :=
      (toPt.1 + (toPt.1 - fromPt.1) * (f - 1), toPt.2 + (toPt.2 - fromPt.2) * (f - 1))
    pyInsert pts idx op
  else pts

/-- One pause of add_pause_patterns: look up the dwell point, insert it 2-4
times at idx + offset, and advance the offset. -/
def pauseStep (rng : CurveRng) (st : List Point × ℕ) (p : ℕ × ℕ) :
    Except PyErr (List Point × ℕ) := do
  let k := 2 + rng.pauseLenSeed p.1 % 3
  let pp ← pyListGet st.1 ((p.2 : ℤ) + (st.2 : ℤ))
  Except.ok (insertKTimes pp (p.2 + st.2) k st.1, st.2 + k)

/-- HumanizeMouseTrajectory.add_pause_patterns. -/
def add_pause_patterns (rng : CurveRng) (pts : List Point) (distance : ℚ) :
    Except PyErr (List Point) :=
  if distance < 300 ∨ pts.length < 10 then Except.ok pts
  else
    let num : ℕ :=
      if distance < 500 then ([0, 1].getD rng.pauseChoice 0)
      else ([1, 2].getD rng.pauseChoice 0)
    if num = 0 then Except.ok pts
    else
      let ss : ℤ := pyInt ((pts.length : ℚ) * (1/10))
      let se : ℤ := pyInt ((pts.length : ℚ) * (4/5))
      if se ≤ ss then Except.ok pts
      else
        let idxs := sortNat ((List.range num).map
          (fun j => (ss + rng.sampleSeed j % (se - ss)).toNat))
        do
          let st ← exceptFoldlM (pauseStep rng) (pts, 0) idxs.enum
          Except.ok st.1

/-- HumanizeMouseTrajectory.generate_curve: knots → Bézier sample → distort
→ tween → overshoot → pauses. -/
def generate_curve (o : RealOracles) (rng : CurveRng) (fromPt toPt : Point)
    (kw : GenKwargs) : Except PyErr (List Point) :=
  let obx := kw.offset_boundary_x.getD 80
  let oby := kw.offset_boundary_y.getD 80
  let lb := kw.left_boundary.getD (min fromPt.1 toPt.1) - obx
  let rb := kw.right_boundary.getD (max fromPt.1 toPt.1) + obx
  let db := kw.down_boundary.getD (min fromPt.2 toPt.2) - oby
  let ub := kw.up_boundary.getD (max fromPt.2 toPt.2) + oby
  let kc := kw.knots_count.getD 2
  let dm := kw.distortion_mean.getD 1
  let ds := kw.distortion_st_dev.getD 1
  let df := kw.distortion_frequency.getD (1/2)
  do
    let knots ← generate_internal_knots rng lb rb db ub kc
    let pts1 ← generate_points fromPt toPt knots
    let pts2 ← distort_points o rng pts1 dm ds df
    let pts3 ← tween_points o fromPt toPt pts2 kw.effTween kw.effTargetPoints
    let distance := |o.sqrtO ((toPt.1 - fromPt.1) ^ 2 + (toPt.2 - fromPt.2) ^ 2)|
    let pts4 := add_overshoot_correction rng fromPt toPt pts3 distance kw.effTargetSize
    add_pause_patterns rng pts4 distance

end HumanizeMouseTrajectory

namespace CalculateAndRandomize

/-- calculate_edge_proximity(point, viewport_width, viewport_height):
0 at the centre, 1 at (or beyond) an edge, clamped to [0, 1]. -/
def calculate_edge_proximity (p : Point) (w h : ℚ) : Except PyErr ℚ :=
  if w ≤ 0 then Except.error PyErr.valueError
  else if h ≤ 0 then Except.error PyErr.valueError
  else
    let xProx := min (p.1 / w) ((w - p.1) / w) * 2
    let yProx := min (p.2 / h) ((h - p.2) / h) * 2
    Except.ok (max 0 (min (1 - min xProx yProx) 1))

/-- element.size of a web element. -/
structure ElementSize where
  width : ℚ
  height : ℚ

/-- calculate_absolute_offset(element, [rx, ry]): validates the shape, the
[0, 1] range of each component and the element dimensions, then truncates
width*rx and height*ry to ints. -/
def calculate_absolute_offset (el : ElementSize) (offs : List ℚ) :
    Except PyErr (List ℤ) :=
  if offs.length ≠ 2 then Except.error PyErr.valueError
  else
    let rx := offs.getD 0 0
    let ry := offs.getD 1 0
    if ¬(0 ≤ rx ∧ rx ≤ 1) then Except.error PyErr.valueError
    else if ¬(0 ≤ ry ∧ ry ≤ 1) then Except.error PyErr.valueError
    else if el.width < 0 ∨ el.height < 0 then Except.error PyErr.valueError
    else Except.ok [pyInt (el.width * rx), pyInt (el.height * ry)]

/-- The three offset-boundary range tuples of constants.py. -/
def offsetRanges : List (ℤ × ℤ) := [(20, 45), (45, 75), (75, 100)]

/-- random.choice(random.choices([LOW, MID, HIGH], weights)[0]): a weighted
pick of a range tuple followed by a choice of one of its two endpoints. -/
def pickOffset (rSeed : Fin 3) (eSeed : Fin 2) : ℤ :=
  let pr := offsetRanges.getD rSeed (0, 0)
  if eSeed = 0 then pr.1 else pr.2

/-- The distance-tiered knot-count option lists. -/
def knotOptions (distance thr1 thr2 : ℚ) : List ℤ :=
  if distance < thr1 then [1, 2]
  else if distance < thr2 then [2, 3, 4]
  else [3, 4, 5, 6]

/-- Oracle seeds for one generate_random_curve_parameters call. -/
structure ParamRng where
  tweenIdx : Fin 13 := 0
  rangeSeedX : Fin 3 := 0
  rangeSeedY : Fin 3 := 0
  endSeedX : Fin 2 := 0
  endSeedY : Fin 2 := 0
  thr1Seed : ℚ := 0
  thr2Seed : ℚ := 0
  knotSeed : ℕ := 0
  dmSeed : ℤ := 0
  dsSeed : ℤ := 0
  dfSeed : ℤ := 0

/-- The 8-tuple returned by generate_random_curve_parameters. -/
structure ParamOut where
  offset_boundary_x : ℤ
  offset_boundary_y : ℤ
  knots_count : ℤ
  distortion_mean : ℚ
  distortion_st_dev : ℚ
  distortion_frequency : ℚ
  tween : ℚ → ℚ
  target_points : ℤ

/-- The offset-boundary pick for the x axis before edge damping. -/
def preOffX (rng : ParamRng) : ℤ := pickOffset rng.rangeSeedX rng.endSeedX

/-- The offset-boundary pick for the y axis before edge damping. -/
def preOffY (rng : ParamRng) : ℤ := pickOffset rng.rangeSeedY rng.endSeedY

/-- The knot-count pick before edge damping. -/
def preKnots (o : RealOracles) (rng : ParamRng) (origin dest : Point) : ℤ :=
  let distance := |o.sqrtO ((origin.1 - dest.1) ^ 2 + (origin.2 - dest.2) ^ 2)|
  let opts := knotOptions distance (pyUniform 80 120 rng.thr1Seed)
    (pyUniform 400 600 rng.thr2Seed)
  opts.getD (rng.knotSeed % opts.length) 1

/-- generate_random_curve_parameters(driver, origin, destination): easing
pick from the 13-easing pool, endpoint offset-boundary picks, randomized
knot tiers, distortion draws with short-distance damping, logarithmic
target_points capped at 250, and edge-proximity damping. -/
def generate_random_curve_parameters (o : RealOracles) (pool : Fin 13 → ℚ → ℚ)
    (rng : ParamRng) (w h : ℚ) (origin dest : Point) : Except PyErr ParamOut :=
  if w ≤ 0 then Except.error PyErr.valueError
  else if h ≤ 0 then Except.error PyErr.valueError
  else
    let tween := pool rng.tweenIdx
    let distance := |o.sqrtO ((origin.1 - dest.1) ^ 2 + (origin.2 - dest.2) ^ 2)|
    let bx := preOffX rng
    let bY := preOffY rng
    let kc := preKnots o rng origin dest
    let dm : ℚ := (80 + rng.dmSeed % 30 : ℤ) / 100
    let ds : ℚ := (85 + rng.dsSeed % 25 : ℤ) / 100
    let df : ℚ := (25 + rng.dfSeed % 45 : ℤ) / 100
    let dsdf : ℚ × ℚ :=
      if distance < 30 then (ds * (2/5), df * (1/2))
      else if distance < 75 then (ds * (7/10), df * (4/5))
      else (ds, df)
    let tp0 : ℤ :=
      if distance < 50 then max (pyInt (distance * (3/10))) 10
      else if distance < 100 then max (pyInt (distance * (1/2))) 15
      else if distance < 500 then pyInt (60 + 40 * o.log2O (distance / 100))
      else pyInt (100 + 50 * o.log2O (distance / 500))
    let tp := min tp0 250
    do
      let pe1 ← calculate_edge_proximity origin w h
      let pe2 ← calculate_edge_proximity dest w h
      let me := max pe1 pe2
      Except.ok
        { offset_boundary_x := pyInt ((bx : ℚ) * (1 - me * (7/10)))
          offset_boundary_y := pyInt ((bY : ℚ) * (1 - me * (7/10)))
          knots_count := max 1 (pyInt ((kc : ℚ) * (1 - me * (1/2))))
          distortion_mean := dm
          distortion_st_dev := dsdf.1
          distortion_frequency := dsdf.2
          tween := tween
          target_points := tp }

/-- A point lies within 5 % of some viewport edge (the premise of the
edge-damping property). -/
def nearEdge (p : Point) (w h : ℚ) : Prop :=
  min p.1 (w - p.1) ≤ w * (1/20) ∨ min p.2 (h - p.2) ≤ h * (1/20)

instance (p : Point) (w h : ℚ) : Decidable (nearEdge p w h) := by
  unfold nearEdge; infer_instance

end CalculateAndRandomize

namespace SystemCursor

/-- Steady-mode overrides from constants.py. -/
def STEADY_OFFSET_BOUNDARY : ℚ := 10

/-- STEADY_DISTORTION_MEAN = 1.2. -/
def STEADY_DISTORTION_MEAN : ℚ := 6/5

/-- STEADY_DISTORTION_STDEV = 1.2. -/
def STEADY_DISTORTION_STDEV : ℚ := 6/5

/-- STEADY_DISTORTION_FREQ = 1. -/
def STEADY_DISTORTION_FREQ : ℚ := 1

/-- _CursorContext: per-instance session state for speed variation. -/
structure CursorContext where
  start_time : ℚ
  movement_count : ℕ
  last_movement_time : ℚ
  recent_targets : List ℚ

/-- _CursorContext.__init__ at clock value t. -/
def CursorContext.init (t : ℚ) : CursorContext :=
  { start_time := t, movement_count := 0, last_movement_time := t, recent_targets := [] }

/-- _CursorContext.record_movement(target_size): bump the count, stamp the
time, append the size and drop the oldest entry past five. -/
def record_movement (ctx : CursorContext) (now : ℚ) (ts : Option ℚ) : CursorContext :=
  let c2 := { ctx with movement_count := ctx.movement_count + 1, last_movement_time := now }
  match ts with
  | none => c2
  | some s =>
      let r := c2.recent_targets ++ [s]
      { c2 with recent_targets := if r.length > 5 then r.drop 1 else r }

/-- _CursorContext.get_fatigue_factor at clock value now. -/
def get_fatigue_factor (ctx : CursorContext) (now : ℚ) : ℚ :=
  1 + min ((now - ctx.start_time) / 60 / 2 * (1/100)) (3/20)

/-- _CursorContext.get_repetition_factor: 1.0 below three movements or
three ring entries, else 0.85 / 0.92 / 1.0 by target-size variance. -/
def get_repetition_factor (ctx : CursorContext) : ℚ :=
  if ctx.movement_count < 3 then 1
  else if ctx.recent_targets.length < 3 then 1
  else
    let n : ℚ := ctx.recent_targets.length
    let avg := ctx.recent_targets.sum / n
    let v := ((ctx.recent_targets.map (fun s => (s - avg) ^ 2)).sum) / n
    if v < 100 then 17/20
    else if v < 500 then 23/25
    else 1

/-- The repetition rule as the spec words it: "requires ≥3 prior movements
and ≥3 entries in the recent-size ring; compute variance σ²; return 0.85 if
σ²<100, 0.92 if σ²<500, else 1.0." -/
def specRepetitionFactor (ctx : CursorContext) : ℚ :=
  if 3 ≤ ctx.movement_count ∧ 3 ≤ ctx.recent_targets.length then
    let n : ℚ := ctx.recent_targets.length
    let mean := ctx.recent_targets.sum / n
    let sigma2 := ((ctx.recent_targets.map (fun s => (s - mean) ^ 2)).sum) / n
    if sigma2 < 100 then 17/20 else if sigma2 < 500 then 23/25 else 1
  else 1

/-- SystemCursor._calculate_movement_duration: Fitts-Law time with
randomized coefficients, fatigue, repetition and variability, clamped to
[0.15, 3.0]; records the movement afterwards. -/
def calculate_movement_duration (o : RealOracles) (ctx : CursorContext)
    (now : ℚ) (fromPt toPt : Point) (ts : ℚ) (aSeed bSeed varSeed : ℚ) :
    ℚ × CursorContext :=
  let distance := |o.sqrtO ((toPt.1 - fromPt.1) ^ 2 + (toPt.2 - fromPt.2) ^ 2)|
  let a := pyUniform (2/25) (3/25) aSeed
  let b := pyUniform (3/25) (9/50) bSeed
  let target_width := max ts 5
  let index_of_difficulty := o.log2O (distance / target_width + 1)
  let base_time := a + b * index_of_difficulty
  let base2 := base_time * (get_fatigue_factor ctx now * get_repetition_factor ctx)
  let duration := base2 * pyUniform (3/4) (13/10) varSeed
  (max (3/20) (min duration 3), record_movement ctx now (some ts))

/-- The **kwargs dictionary built by SystemCursor._generate_human_curve
(lines 240-251): the selected easing travels under the key tween. -/
def curveKwargs (obx oby : ℚ) (kc : ℤ) (dm ds df : ℚ) (tw : ℚ → ℚ) (tp : ℤ) :
    HumanizeMouseTrajectory.GenKwargs :=
  { offset_boundary_x := some obx
    offset_boundary_y := some oby
    knots_count := some kc
    distortion_mean := some dm
    distortion_st_dev := some ds
    distortion_frequency := some df
    tween := some tw
    target_points := some tp }

/-- SystemCursor._generate_human_curve: run the parameter selector, apply
the steady overrides, and build the trajectory. -/
def generate_human_curve (o : RealOracles) (pool : Fin 13 → ℚ → ℚ)
    (prng : CalculateAndRandomize.ParamRng) (crng : HumanizeMouseTrajectory.CurveRng)
    (w h : ℚ) (fromPt toPt : Point) (steady : Bool) :
    Except PyErr (List Point) := do
  let ps ← CalculateAndRandomize.generate_random_curve_parameters o pool prng w h fromPt toPt
  let kw :=
    if steady then
      curveKwargs STEADY_OFFSET_BOUNDARY STEADY_OFFSET_BOUNDARY ps.knots_count
        STEADY_DISTORTION_MEAN STEADY_DISTORTION_STDEV STEADY_DISTORTION_FREQ
        ps.tween ps.target_points
    else
      curveKwargs (ps.offset_boundary_x : ℚ) (ps.offset_boundary_y : ℚ) ps.knots_count
        ps.distortion_mean ps.distortion_st_dev ps.distortion_frequency
        ps.tween ps.target_points
  HumanizeMouseTrajectory.generate_curve o crng fromPt toPt kw

/-- SystemCursor.move_to without a pre-built curve: generate the trajectory,
then the duration (auto via Fitts' Law when duration is None), and hand
both to the executor.  Returns (trajectory, duration, updated context). -/
def move_to (o : RealOracles) (pool : Fin 13 → ℚ → ℚ)
    (prng : CalculateAndRandomize.ParamRng) (crng : HumanizeMouseTrajectory.CurveRng)
    (w h : ℚ) (fromPt point : Point) (duration : Option ℚ) (steady : Bool)
    (target_size : ℚ) (ctx : CursorContext) (now aSeed bSeed varSeed : ℚ) :
    Except PyErr (List Point × ℚ × CursorContext) := do
  let curve ← generate_human_curve o pool prng crng w h fromPt point steady
  let dc : ℚ × CursorContext :=
    match duration with
    | none => calculate_movement_duration o ctx now fromPt point target_size aSeed bSeed varSeed
    | some d => (d, ctx)
  Except.ok (curve, dc.1, dc.2)

/-- SystemCursor.click_on: validate clicks and click_duration, then perform
the move_to (duration always auto).  Only the movement part is modelled. -/
def click_on (o : RealOracles) (pool : Fin 13 → ℚ → ℚ)
    (prng : CalculateAndRandomize.ParamRng) (crng : HumanizeMouseTrajectory.CurveRng)
    (w h : ℚ) (fromPt point : Point) (clicks : ℤ) (click_duration : ℚ)
    (steady : Bool) (target_size : ℚ) (ctx : CursorContext)
    (now aSeed bSeed varSeed : ℚ) :
    Except PyErr (List Point × ℚ × CursorContext) :=
  if clicks < 1 then Except.error PyErr.valueError
  else if click_duration < 0 then Except.error PyErr.valueError
  else move_to o pool prng crng w h fromPt point none steady target_size ctx
    now aSeed bSeed varSeed

/-- The trajectory component of a move_to result. -/
def trajOf (r : Except PyErr (List Point × ℚ × CursorContext)) :
    Except PyErr (List Point) :=
  r.map (fun t => t.1)

/-- SystemCursor.idle_jitter, modelled up to the movement plan: validation,
intensity clamp, iterations = int(duration * 10) and the per-iteration
interval duration / iterations (Python division, may raise). -/
def idle_jitter (duration intensity : ℚ) : Except PyErr (ℕ × ℚ × ℚ) :=
  if duration ≤ 0 then Except.error PyErr.valueError
  else if intensity ≤ 0 then Except.error PyErr.valueError
  else
    let clamped := max (1/2) (min intensity 2)
    let iterations := pyInt (duration * 10)
    do
      let interval ← pydiv duration (iterations : ℚ)
      Except.ok (iterations.toNat, interval, clamped)

end SystemCursor

namespace WebAdjuster

/-- The **kwargs dictionary built by WebAdjuster._get_or_generate_curve
(lines 164-175): identical key set to the system-cursor call site, the
selected easing again under the key tween. -/
def curveKwargs (obx oby : ℚ) (kc : ℤ) (dm ds df : ℚ) (tw : ℚ → ℚ) (tp : ℤ) :
    HumanizeMouseTrajectory.GenKwargs :=
  { offset_boundary_x := some obx
    offset_boundary_y := some oby
    knots_count := some kc
    distortion_mean := some dm
    distortion_st_dev := some ds
    distortion_frequency := some df
    tween := some tw
    target_points := some tp }

/-- WebAdjuster._calculate_destination for an element target: rect is the
rounded bounding-rect top-left from execute_script; with a relative
position the exact pixel offset is added, otherwise a centre-biased Beta
draw (oracle seeds bxSeed, bySeed with support (0, 1)) picks the point. -/
def calculate_destination (rect : Point) (el : CalculateAndRandomize.ElementSize)
    (bxSeed bySeed : ℚ) (relative_position : Option (List ℚ)) :
    Except PyErr Point :=
  match relative_position with
  | none =>
      Except.ok (rect.1 + el.width * pyRandom bxSeed, rect.2 + el.height * pyRandom bySeed)
  | some offs =>
      (CalculateAndRandomize.calculate_absolute_offset el offs).map
        (fun l => (rect.1 + (l.getD 0 0 : ℚ), rect.2 + (l.getD 1 0 : ℚ)))

end WebAdjuster

/-! Helper lemmas about the Python-semantics primitives. -/

theorem pyInt_of_nonneg {q : ℚ} (h : 0 ≤ q) : pyInt q = ⌊q⌋ := by
  simp [pyInt, not_lt.mpr h]

theorem pyRandom_nonneg (s : ℚ) : 0 ≤ pyRandom s := Int.fract_nonneg s

theorem pyRandom_lt_one (s : ℚ) : pyRandom s < 1 := Int.fract_lt_one s

theorem pyUniform_le {a b : ℚ} (h : a ≤ b) (s : ℚ) : a ≤ pyUniform a b s := by
  have h1 := pyRandom_nonneg s
  have : 0 ≤ (b - a) * pyRandom s := mul_nonneg (by linarith) h1
  unfold pyUniform; linarith

theorem pyUniform_lt {a b : ℚ} (h : a < b) (s : ℚ) : pyUniform a b s < b := by
  have h1 := pyRandom_lt_one s
  have h0 := pyRandom_nonneg s
  have : (b - a) * pyRandom s < (b - a) * 1 := by
    apply mul_lt_mul_of_pos_left h1; linarith
  unfold pyUniform; linarith

theorem pyInsertAux_eq_take_drop (x : α) (n : ℕ) (l : List α) :
    pyInsertAux x n l = l.take n ++ x :: l.drop n := by
  induction n generalizing l with
  | zero => simp [pyInsertAux]
  | succ n ih =>
      cases l with
      | nil => simp [pyInsertAux]
      | cons a t => simp [pyInsertAux, ih]

theorem pyInsertAux_length (x : α) (n : ℕ) (l : List α) :
    (pyInsertAux x n l).length = l.length + 1 := by
  rw [pyInsertAux_eq_take_drop]
  simp
  omega

theorem pyInsertAux_head? (x : α) {n : ℕ} (hn : 1 ≤ n) {l : List α} (hl : l ≠ []) :
    (pyInsertAux x n l).head? = l.head? := by
  rw [pyInsertAux_eq_take_drop]
  cases l with
  | nil => exact absurd rfl hl
  | cons a t =>
      cases n with
      | zero => omega
      | succ m => simp

theorem getLast?_drop_of_lt {l : List α} {n : ℕ} (hn : n < l.length) :
    (l.drop n).getLast? = l.getLast? := by
  induction l generalizing n with
  | nil => simp at hn
  | cons a t ih =>
      cases n with
      | zero => rfl
      | succ m =>
          have hm : m < t.length := by simpa using hn
          have ht : t ≠ [] := by intro h; rw [h] at hm; simp at hm
          have h2 : (a :: t).getLast? = t.getLast? := by
            rw [show a :: t = [a] ++ t by rfl, List.getLast?_append_of_ne_nil _ ht]
          rw [List.drop_succ_cons, ih hm, h2]

theorem pyInsertAux_getLast? (x : α) {n : ℕ} {l : List α} (hn : n < l.length) :
    (pyInsertAux x n l).getLast? = l.getLast? := by
  rw [pyInsertAux_eq_take_drop]
  have hd : l.drop n ≠ [] := by
    intro h
    have := List.drop_eq_nil_iff.mp h
    omega
  rw [List.getLast?_append_cons]
  rw [show x :: l.drop n = [x] ++ l.drop n by rfl, List.getLast?_append_of_ne_nil _ hd]
  exact getLast?_drop_of_lt hn

theorem insertKTimes_length (x : α) (pos k : ℕ) (l : List α) :
    (insertKTimes x pos k l).length = l.length + k := by
  induction k generalizing l with
  | zero => rfl
  | succ m ih =>
      rw [insertKTimes, ih, pyInsertAux_length]
      omega

theorem insertKTimes_head? (x : α) {pos : ℕ} (hp : 1 ≤ pos) (k : ℕ)
    {l : List α} (hl : l ≠ []) :
    (insertKTimes x pos k l).head? = l.head? := by
  induction k generalizing l with
  | zero => rfl
  | succ m ih =>
      rw [insertKTimes]
      have hne : pyInsertAux x pos l ≠ [] := by
        intro h
        have := pyInsertAux_length x pos l
        rw [h] at this
        simp at this
      rw [ih hne, pyInsertAux_head? x hp hl]

theorem insertKTimes_getLast? (x : α) {pos : ℕ} (k : ℕ) {l : List α}
    (hp : pos < l.length) :
    (insertKTimes x pos k l).getLast? = l.getLast? := by
  induction k generalizing l with
  | zero => rfl
  | succ m ih =>
      rw [insertKTimes]
      have hlt : pos < (pyInsertAux x pos l).length := by
        rw [pyInsertAux_length]; omega
      rw [ih hlt, pyInsertAux_getLast? x hp]

theorem exceptMapM_ok_length {f : α → Except PyErr β} {l : List α} {r : List β}
    (h : exceptMapM f l = Except.ok r) : r.length = l.length := by
  induction l generalizing r with
  | nil =>
      simp [exceptMapM] at h
      simp [← h]
  | cons a t ih =>
      rw [exceptMapM] at h
      cases hf : f a with
      | error e => rw [hf] at h; simp at h
      | ok b =>
          rw [hf] at h
          cases ht : exceptMapM f t with
          | error e => rw [ht] at h; simp at h
          | ok bs =>
              rw [ht] at h
              simp at h
              rw [← h]
              simp [ih ht]

theorem exceptMapM_ok_get {f : α → Except PyErr β} {l : List α} {r : List β}
    (h : exceptMapM f l = Except.ok r) (i : ℕ) (hi : i < l.length)
    (hr : i < r.length) : f (l.get ⟨i, hi⟩) = Except.ok (r.get ⟨i, hr⟩) := by
  induction l generalizing r i with
  | nil => simp at hi
  | cons a t ih =>
      rw [exceptMapM] at h
      cases hf : f a with
      | error e => rw [hf] at h; simp at h
      | ok b =>
          rw [hf] at h
          cases ht : exceptMapM f t with
          | error e => rw [ht] at h; simp at h
          | ok bs =>
              rw [ht] at h
              simp at h
              subst h
              cases i with
              | zero => simpa using hf
              | succ j =>
                  have hj : j < t.length := by simpa using hi
                  have hjr : j < bs.length := by simpa using hr
                  simpa using ih ht j hj hjr

theorem exceptFoldlM_invariant {f : σ → α → Except PyErr σ} {P : σ → Prop}
    {l : List α} (hstep : ∀ s a s2, a ∈ l → P s → f s a = Except.ok s2 → P s2) :
    ∀ {init fin : σ}, P init → exceptFoldlM f init l = Except.ok fin → P fin := by
  induction l with
  | nil =>
      intro init fin hP h
      simp only [exceptFoldlM, Except.ok.injEq] at h
      rwa [← h]
  | cons a t ih =>
      intro init fin hP h
      rw [exceptFoldlM] at h
      cases hf : f init a with
      | error e => rw [hf] at h; simp at h
      | ok s2 =>
          rw [hf] at h
          have hP2 : P s2 := hstep init a s2 (by simp) hP hf
          exact ih (fun s b s3 hb => hstep s b s3 (by simp [hb])) hP2 h

theorem mem_insertSorted {a b : ℕ} {l : List ℕ} :
    b ∈ insertSorted a l ↔ b = a ∨ b ∈ l := by
  induction l with
  | nil => simp [insertSorted]
  | cons c t ih =>
      rw [insertSorted]
      by_cases h : a ≤ c
      · simp only [h, if_true, List.mem_cons]
      · simp only [h, if_false, List.mem_cons, ih]
        tauto

theorem mem_sortNat {b : ℕ} {l : List ℕ} : b ∈ sortNat l ↔ b ∈ l := by
  induction l with
  | nil => simp [sortNat]
  | cons a t ih =>
      rw [sortNat, mem_insertSorted]
      simp [ih]

theorem pyListGet_zero {l : List α} (hl : l ≠ []) :
    pyListGet l 0 = Except.ok (l.headD d) := by
  cases l with
  | nil => exact absurd rfl hl
  | cons a t => simp [pyListGet]

theorem pyListGet_last {l : List α} (hl : l ≠ []) :
    pyListGet l ((l.length : ℤ) - 1) = Except.ok (l.getLastD d) := by
  have hlen : 1 ≤ l.length := by
    cases l with
    | nil => exact absurd rfl hl
    | cons a t => simp
  have hnn : ¬((l.length : ℤ) - 1 < 0) := by omega
  have htn : ((l.length : ℤ) - 1).toNat = l.length - 1 := by omega
  have hlt : ((l.length : ℤ) - 1).toNat < l.length := by omega
  simp only [pyListGet, hnn, if_false]
  rw [dif_pos ⟨by omega, hlt⟩]
  congr 1
  rw [List.getLastD_eq_getLast?, List.getLast?_eq_getLast_of_ne_nil hl]
  simp only [Option.getD_some]
  have hlt2 : l.length - 1 < l.length := by omega
  have := List.get_length_sub_one hlt2
  rw [show (⟨((l.length : ℤ) - 1).toNat, hlt⟩ : Fin l.length)
        = ⟨l.length - 1, hlt2⟩ by exact Fin.ext htn]
  rw [this]

theorem head?_eq_get {l : List α} (h : 0 < l.length) :
    l.head? = some (l.get ⟨0, h⟩) := by
  cases l with
  | nil => simp at h
  | cons a t => rfl

theorem getLast?_eq_get {l : List α} (h : 0 < l.length) :
    l.getLast? = some (l.get ⟨l.length - 1, by omega⟩) := by
  have hl : l ≠ [] := by intro hh; rw [hh] at h; simp at h
  rw [List.getLast?_eq_getLast_of_ne_nil hl]
  have hlt : l.length - 1 < l.length := by omega
  rw [List.get_length_sub_one hlt]

theorem getD_zero_eq_headD (l : List α) (d : α) : l.getD 0 d = l.headD d := by
  cases l <;> rfl

theorem getD_length_sub_one {l : List α} (hl : l ≠ []) (d : α) :
    l.getD (l.length - 1) d = l.getLastD d := by
  have h : 0 < l.length := by
    cases l with
    | nil => exact absurd rfl hl
    | cons a t => simp
  have hlt : l.length - 1 < l.length := by omega
  rw [List.getD_eq_get _ _ hlt, List.get_length_sub_one hlt,
    List.getLastD_eq_getLast?, List.getLast?_eq_getLast_of_ne_nil hl]
  rfl

namespace BezierCalculator

theorem binomialLoop_eq_choose (n : ℕ) : ∀ k, k ≤ n → binomialLoop n k = n.choose k := by
  intro k
  induction k with
  | zero => intro _; simp [binomialLoop]
  | succ m ih =>
      intro hk
      have hm : m ≤ n := by omega
      have hfold : binomialLoop n (m + 1)
          = binomialLoop n m * (n - m) / (m + 1) := by
        unfold binomialLoop
        rw [List.range_succ, List.foldl_append, List.foldl_cons, List.foldl_nil]
      rw [hfold, ih hm]
      have hq := Nat.choose_succ_right_eq n m
      rw [← hq, Nat.mul_div_cancel _ (Nat.succ_pos m)]

theorem binomial_eq_choose (n k : ℕ) : binomial n k = n.choose k := by
  unfold binomial
  by_cases h1 : k > n
  · rw [if_pos h1, Nat.choose_eq_zero_of_lt h1]
  · rw [if_neg h1]
    have hkn : k ≤ n := by omega
    by_cases h2 : k = 0 ∨ k = n
    · rw [if_pos h2]
      rcases h2 with h2 | h2 <;> subst h2 <;> simp
    · rw [if_neg h2]
      push_neg at h2
      by_cases h3 : k ≤ n - k
      · rw [min_eq_left h3, binomialLoop_eq_choose n k hkn]
      · rw [min_eq_right (by omega), binomialLoop_eq_choose n (n - k) (by omega),
          Nat.choose_symm hkn]

theorem bernstein_point_zero (i n coeff : ℕ) :
    bernstein_polynomial_point 0 i n coeff = if i = 0 then (coeff : ℚ) else 0 := by
  simp only [bernstein_polynomial_point]
  cases i with
  | zero => simp
  | succ j =>
      cases j with
      | zero => simp
      | succ m =>
          have hz : ((0 : ℚ)) ^ (m + 2) = 0 := zero_pow (by omega)
          simp [hz]

theorem bernstein_point_one (i n coeff : ℕ) :
    bernstein_polynomial_point 1 i n coeff = if n ≤ i then (coeff : ℚ) else 0 := by
  simp only [bernstein_polynomial_point, one_pow]
  by_cases h : n ≤ i
  · have h0 : n - i = 0 := by omega
    simp [h0, h]
  · have h0 : n - i ≠ 0 := by omega
    have hz : ((1 : ℚ) - 1) ^ (n - i) = 0 := by
      rw [sub_self]
      exact zero_pow h0
    by_cases h1 : n - i = 1
    · simp [h0, h1, h]
    · simp [h0, h1, h, hz]

theorem bernsteinAt_zero {pts : List Point} (h : pts ≠ []) :
    bernsteinAt pts 0 = pts.headD (0, 0) := by
  have hlen : 0 < pts.length := by
    cases pts with
    | nil => exact absurd rfl h
    | cons a t => simp
  have hx : ∑ i ∈ Finset.range pts.length,
      (pts.getD i (0, 0)).1 * bernstein_polynomial_point 0 i (pts.length - 1)
        (binomial (pts.length - 1) i)
      = (pts.getD 0 (0, 0)).1 := by
    rw [Finset.sum_eq_single_of_mem 0 (Finset.mem_range.mpr hlen)]
    · rw [bernstein_point_zero, if_pos rfl]
      have : binomial (pts.length - 1) 0 = 1 := by
        unfold binomial
        simp
      rw [this]
      norm_num
    · intro b _ hb
      rw [bernstein_point_zero, if_neg hb, mul_zero]
  have hy : ∑ i ∈ Finset.range pts.length,
      (pts.getD i (0, 0)).2 * bernstein_polynomial_point 0 i (pts.length - 1)
        (binomial (pts.length - 1) i)
      = (pts.getD 0 (0, 0)).2 := by
    rw [Finset.sum_eq_single_of_mem 0 (Finset.mem_range.mpr hlen)]
    · rw [bernstein_point_zero, if_pos rfl]
      have : binomial (pts.length - 1) 0 = 1 := by
        unfold binomial
        simp
      rw [this]
      norm_num
    · intro b _ hb
      rw [bernstein_point_zero, if_neg hb, mul_zero]
  simp only [bernsteinAt]
  rw [hx, hy, Prod.mk.eta, getD_zero_eq_headD]

theorem bernsteinAt_one {pts : List Point} (h : pts ≠ []) :
    bernsteinAt pts 1 = pts.getLastD (0, 0) := by
  have hlen : 0 < pts.length := by
    cases pts with
    | nil => exact absurd rfl h
    | cons a t => simp
  have hbin : binomial (pts.length - 1) (pts.length - 1) = 1 := by
    unfold binomial
    simp
  have hx : ∑ i ∈ Finset.range pts.length,
      (pts.getD i (0, 0)).1 * bernstein_polynomial_point 1 i (pts.length - 1)
        (binomial (pts.length - 1) i)
      = (pts.getD (pts.length - 1) (0, 0)).1 := by
    rw [Finset.sum_eq_single_of_mem (pts.length - 1)
      (Finset.mem_range.mpr (by omega))]
    · rw [bernstein_point_one, if_pos (le_refl _), hbin]
      norm_num
    · intro b hb hbne
      have hblt : b < pts.length := Finset.mem_range.mp hb
      rw [bernstein_point_one, if_neg (by omega), mul_zero]
  have hy : ∑ i ∈ Finset.range pts.length,
      (pts.getD i (0, 0)).2 * bernstein_polynomial_point 1 i (pts.length - 1)
        (binomial (pts.length - 1) i)
      = (pts.getD (pts.length - 1) (0, 0)).2 := by
    rw [Finset.sum_eq_single_of_mem (pts.length - 1)
      (Finset.mem_range.mpr (by omega))]
    · rw [bernstein_point_one, if_pos (le_refl _), hbin]
      norm_num
    · intro b hb hbne
      have hblt : b < pts.length := Finset.mem_range.mp hb
      rw [bernstein_point_one, if_neg (by omega), mul_zero]
  simp only [bernsteinAt]
  rw [hx, hy, Prod.mk.eta, getD_length_sub_one h]

end BezierCalculator

theorem except_ok_bind (a : α) (f : α → Except PyErr β) :
    (Except.ok a >>= f) = f a := rfl

theorem except_error_bind (e : PyErr) (f : α → Except PyErr β) :
    ((Except.error e : Except PyErr α) >>= f) = Except.error e := rfl

theorem map_range_head? (f : ℕ → α) {m : ℕ} (hm : 0 < m) :
    ((List.range m).map f).head? = some (f 0) := by
  cases m with
  | zero => omega
  | succ k =>
      rw [List.range_succ_eq_map]
      simp

theorem map_range_getLast? (f : ℕ → α) {m : ℕ} (hm : 0 < m) :
    ((List.range m).map f).getLast? = some (f (m - 1)) := by
  cases m with
  | zero => omega
  | succ k =>
      rw [List.range_succ, List.map_append]
      simp

namespace BezierCalculator

theorem cpic_length {n : ℤ} (hn : 2 ≤ n) (pts : List Point) :
    (calculate_points_in_curve n pts).length = n.toNat := by
  unfold calculate_points_in_curve
  rw [if_neg (by omega)]
  simp

theorem cpic_head? {n : ℤ} (hn : 2 ≤ n) {pts : List Point} (h : pts ≠ []) :
    (calculate_points_in_curve n pts).head? = some (pts.headD (0, 0)) := by
  unfold calculate_points_in_curve
  rw [if_neg (by omega)]
  rw [map_range_head? _ (by omega)]
  congr 1
  rw [show ((0 : ℕ) : ℚ) / ((n : ℚ) - 1) = 0 by simp]
  exact bernsteinAt_zero h

theorem cpic_getLast? {n : ℤ} (hn : 2 ≤ n) {pts : List Point} (h : pts ≠ []) :
    (calculate_points_in_curve n pts).getLast? = some (pts.getLastD (0, 0)) := by
  unfold calculate_points_in_curve
  rw [if_neg (by omega)]
  rw [map_range_getLast? _ (by omega)]
  have hcast : ((n.toNat - 1 : ℕ) : ℚ) = (n : ℚ) - 1 := by
    have h1 : (1 : ℕ) ≤ n.toNat := by omega
    push_cast [Nat.cast_sub h1]
    have : ((n.toNat : ℤ) : ℚ) = (n : ℚ) := by
      rw [Int.toNat_of_nonneg (by omega)]
    push_cast at this ⊢
    rw [this]
  rw [hcast]
  have hne : (n : ℚ) - 1 ≠ 0 := by
    have : (2 : ℚ) ≤ (n : ℚ) := by exact_mod_cast hn
    intro hc
    rw [sub_eq_zero] at hc
    rw [hc] at this
    norm_num at this
  rw [div_self hne]
  rw [bernsteinAt_one h]

end BezierCalculator

namespace HumanizeMouseTrajectory

theorem generate_points_spec (fromPt toPt : Point) (knots : List Point) :
    ∃ res, generate_points fromPt toPt knots = Except.ok res ∧
      res.head? = some fromPt ∧ res.getLast? = some toPt ∧ 2 ≤ res.length := by
  unfold generate_points
  set mid : ℚ := max |fromPt.1 - toPt.1| (max |fromPt.2 - toPt.2| 2) with hmid
  have hmid2 : (2 : ℚ) ≤ mid := le_trans (le_max_right _ _) (le_max_right _ _)
  have hn : (2 : ℤ) ≤ pyInt mid := by
    rw [pyInt_of_nonneg (by linarith)]
    exact Int.le_floor.mpr (by exact_mod_cast hmid2)
  set ctrl : List Point := [fromPt] ++ knots ++ [toPt] with hctrl
  have hctrlne : ctrl ≠ [] := by simp [hctrl]
  refine ⟨_, rfl, ?_, ?_, ?_⟩
  · rw [BezierCalculator.cpic_head? hn hctrlne]
    simp [hctrl]
  · rw [BezierCalculator.cpic_getLast? hn hctrlne]
    have : ctrl.getLastD (0, 0) = toPt := by
      rw [hctrl, List.append_assoc]
      rw [show knots ++ [toPt] = knots ++ [toPt] by rfl]
      rw [← List.append_assoc]
      exact List.getLastD_concat _ _ _
    rw [this]
  · rw [BezierCalculator.cpic_length hn]
    omega

theorem head?_eq_some_headD {l : List α} (hl : l ≠ []) (d : α) :
    l.head? = some (l.headD d) := by
  cases l with
  | nil => exact absurd rfl hl
  | cons a t => rfl

theorem getLast?_eq_some_getLastD {l : List α} (hl : l ≠ []) (d : α) :
    l.getLast? = some (l.getLastD d) := by
  rw [List.getLastD_eq_getLast?, List.getLast?_eq_getLast_of_ne_nil hl]
  rfl

theorem distort_points_spec {o : RealOracles} {rng : CurveRng} {pts : List Point}
    {dm ds df : ℚ} {r : List Point} (hlen : 2 ≤ pts.length)
    (h : distort_points o rng pts dm ds df = Except.ok r) :
    r.head? = pts.head? ∧ r.getLast? = pts.getLast? ∧ r.length = pts.length := by
  have hne : pts ≠ [] := by
    intro hc
    rw [hc] at hlen
    simp at hlen
  unfold distort_points at h
  by_cases hdf : 0 ≤ df ∧ df ≤ 1
  · rw [if_neg (by simpa using hdf), if_neg (by omega)] at h
    cases hm : exceptMapM (distortOne o rng pts ds df) (List.range (pts.length - 2)) with
    | error e =>
        rw [hm, except_error_bind] at h
        simp at h
    | ok inner =>
        rw [hm, except_ok_bind] at h
        simp only [Except.ok.injEq] at h
        have hinner : inner.length = pts.length - 2 := by
          have := exceptMapM_ok_length hm
          simpa using this
        subst h
        refine ⟨?_, ?_, ?_⟩
        · rw [head?_eq_some_headD hne (0, 0)]
          rfl
        · rw [show ([pts.headD (0, 0)] ++ inner ++ [pts.getLastD (0, 0)])
              = ([pts.headD (0, 0)] ++ inner) ++ [pts.getLastD (0, 0)] by simp]
          rw [List.getLast?_concat]
          rw [getLast?_eq_some_getLastD hne (0, 0)]
        · simp [hinner]
          omega
  · rw [if_pos (by simpa using hdf)] at h
    simp at h

end HumanizeMouseTrajectory

namespace HumanizeMouseTrajectory

theorem tweenOne_zero (o : RealOracles) (pts : List Point) (tw : ℚ → ℚ)
    (horiz : Bool) (tp : ℤ) : tweenOne o pts tw horiz tp 0 = pyListGet pts 0 := by
  simp only [tweenOne]
  have hc : ((0 : ℕ) : ℤ) < 3 := by norm_num
  rw [if_pos hc]
  have hap : (if horiz then tw (o.powH (((0 : ℕ) : ℚ) / ((tp : ℚ) - 1)))
      else tw (o.powV (((0 : ℕ) : ℚ) / ((tp : ℚ) - 1)))) * (((0 : ℕ) : ℚ) / 3) ^ 3 = 0 := by
    norm_num
  rw [hap]
  norm_num
  rw [show pyInt 0 = 0 by simp [pyInt]]

theorem tweenOne_last (o : RealOracles) (pts : List Point) (tw : ℚ → ℚ)
    (horiz : Bool) {tp : ℤ} (h4 : 4 ≤ tp) (hlen : 1 ≤ pts.length) :
    tweenOne o pts tw horiz tp (tp.toNat - 1) = pyListGet pts ((pts.length : ℤ) - 1) := by
  simp only [tweenOne]
  have hiz : ((tp.toNat - 1 : ℕ) : ℤ) = tp - 1 := by omega
  have hiq : ((tp.toNat - 1 : ℕ) : ℚ) = (tp : ℚ) - 1 := by
    exact_mod_cast congrArg (fun z : ℤ => (z : ℚ)) hiz
  rw [if_neg (by omega), if_pos (by omega)]
  have hz : ((tp : ℚ) - 1 - ((tp.toNat - 1 : ℕ) : ℚ)) = 0 := by
    rw [hiq]
    ring
  rw [hz]
  norm_num
  have hidx : pyInt ((pts.length : ℚ) - 1) = (pts.length : ℤ) - 1 := by
    have hcast : (pts.length : ℚ) - 1 = (((pts.length : ℤ) - 1 : ℤ) : ℚ) := by
      push_cast
      ring
    rw [pyInt_of_nonneg (by
      have : (1 : ℚ) ≤ (pts.length : ℚ) := by exact_mod_cast hlen
      linarith), hcast, Int.floor_intCast]
  rw [hidx]

theorem tween_points_spec {o : RealOracles} {fromPt toPt : Point}
    {pts : List Point} {tw : ℚ → ℚ} {tp : ℤ} {r : List Point}
    (hpts : 2 ≤ pts.length)
    (h : tween_points o fromPt toPt pts tw tp = Except.ok r) :
    2 ≤ tp ∧ r.length = tp.toNat ∧ r.head? = pts.head? ∧
      (4 ≤ tp → r.getLast? = pts.getLast?) := by
  have hne : pts ≠ [] := by
    intro hc
    rw [hc] at hpts
    simp at hpts
  unfold tween_points at h
  by_cases htp : tp < 2
  · rw [if_pos htp] at h
    simp at h
  · rw [if_neg htp] at h
    have h2 : 2 ≤ tp := by omega
    have hlenr : r.length = tp.toNat := by
      have := exceptMapM_ok_length h
      simpa using this
    refine ⟨h2, hlenr, ?_, ?_⟩
    · have hi : 0 < (List.range tp.toNat).length := by simp; omega
      have hr : 0 < r.length := by omega
      have hget := exceptMapM_ok_get h 0 hi hr
      have hrange : (List.range tp.toNat).get ⟨0, hi⟩ = 0 := by simp
      rw [hrange, tweenOne_zero, pyListGet_zero hne (d := (0, 0))] at hget
      rw [head?_eq_get hr, head?_eq_some_headD hne (0, 0)]
      simp only [Except.ok.injEq] at hget
      rw [← hget]
    · intro h4
      have hi : tp.toNat - 1 < (List.range tp.toNat).length := by simp; omega
      have hr : tp.toNat - 1 < r.length := by omega
      have hget := exceptMapM_ok_get h (tp.toNat - 1) hi hr
      have hrange : (List.range tp.toNat).get ⟨tp.toNat - 1, hi⟩ = tp.toNat - 1 := by simp
      rw [hrange, tweenOne_last o pts tw _ h4 (by omega),
        pyListGet_last hne (d := (0, 0))] at hget
      have hrpos : 0 < r.length := by omega
      rw [getLast?_eq_get hrpos, getLast?_eq_some_getLastD hne (0, 0)]
      simp only [Except.ok.injEq] at hget
      have hidxeq : r.length - 1 = tp.toNat - 1 := by omega
      congr 1
      rw [hget]
      congr 1
      exact Fin.ext hidxeq

end HumanizeMouseTrajectory

theorem snd_mem_of_mem_enumFrom {l : List α} {p : ℕ × α} :
    ∀ {n : ℕ}, p ∈ l.enumFrom n → p.2 ∈ l := by
  induction l with
  | nil => intro n h; simp at h
  | cons a t ih =>
      intro n h
      rw [List.enumFrom_cons] at h
      rcases List.mem_cons.mp h with h1 | h1
      · rw [h1]
        simp
      · exact List.mem_cons.mpr (Or.inr (ih h1))

theorem snd_mem_of_mem_enum {l : List α} {p : ℕ × α} (h : p ∈ l.enum) : p.2 ∈ l :=
  snd_mem_of_mem_enumFrom h

namespace HumanizeMouseTrajectory

theorem add_overshoot_spec (rng : CurveRng) (fromPt toPt : Point)
    {pts : List Point} (distance ts : ℚ) (hlen : 2 ≤ pts.length) :
    (add_overshoot_correction rng fromPt toPt pts distance ts).head? = pts.head? ∧
    (add_overshoot_correction rng fromPt toPt pts distance ts).getLast? = pts.getLast? ∧
    pts.length ≤ (add_overshoot_correction rng fromPt toPt pts distance ts).length ∧
    (add_overshoot_correction rng fromPt toPt pts distance ts).length ≤ pts.length + 1 := by
  have hne : pts ≠ [] := by
    intro hc
    rw [hc] at hlen
    simp at hlen
  simp only [add_overshoot_correction]
  by_cases hfire : pyRandom rng.overshootRoll <
      min (2/5) ((min (distance / 1000) 1 + max 0 ((50 - ts) / 50)) / 2)
  · rw [if_pos hfire]
    set u := pyUniform (4/5) (9/10) rng.overshootU with hu
    have hu1 : 4/5 ≤ u := pyUniform_le (by norm_num) _
    have hu2 : u < 9/10 := pyUniform_lt (by norm_num) _
    have hL : (2 : ℚ) ≤ (pts.length : ℚ) := by exact_mod_cast hlen
    have hprod : (1 : ℚ) ≤ (pts.length : ℚ) * u := by nlinarith
    have hlt : (pts.length : ℚ) * u < (pts.length : ℚ) := by nlinarith
    set idx := pyInt ((pts.length : ℚ) * u) with hidx
    have hidx1 : 1 ≤ idx := by
      rw [hidx, pyInt_of_nonneg (by linarith)]
      exact Int.le_floor.mpr (by exact_mod_cast hprod)
    have hidx2 : idx < (pts.length : ℤ) := by
      rw [hidx, pyInt_of_nonneg (by linarith)]
      exact Int.floor_lt.mpr (by exact_mod_cast hlt)
    have hnn : ¬(idx < 0) := by omega
    simp only [pyInsert]
    rw [if_neg hnn]
    have ht1 : 1 ≤ idx.toNat := by omega
    have ht2 : idx.toNat < pts.length := by omega
    refine ⟨pyInsertAux_head? _ ht1 hne, pyInsertAux_getLast? _ ht2, ?_, ?_⟩
    · rw [pyInsertAux_length]
      omega
    · rw [pyInsertAux_length]
  · rw [if_neg hfire]
    exact ⟨rfl, rfl, le_refl _, by omega⟩

theorem pauseFold_spec (rng : CurveRng) (pts : List Point) :
    ∀ (l : List (ℕ × ℕ)) (cur : List Point) (off : ℕ) (fin : List Point × ℕ),
    (∀ p ∈ l, 1 ≤ p.2 ∧ p.2 + 3 ≤ pts.length) →
    cur.head? = pts.head? → cur.getLast? = pts.getLast? →
    cur.length = pts.length + off →
    exceptFoldlM (pauseStep rng) (cur, off) l = Except.ok fin →
    fin.1.head? = pts.head? ∧ fin.1.getLast? = pts.getLast? ∧
      fin.1.length = pts.length + fin.2 ∧ off ≤ fin.2 ∧ fin.2 ≤ off + 4 * l.length := by
  intro l
  induction l with
  | nil =>
      intro cur off fin _ hh hl hlen h
      simp only [exceptFoldlM, Except.ok.injEq] at h
      rw [← h]
      exact ⟨hh, hl, hlen, le_refl _, by omega⟩
  | cons p t ih =>
      intro cur off fin hmem hh hl hlen h
      have hp := hmem p (by simp)
      have hcurne : cur ≠ [] := by
        intro hc
        rw [hc] at hlen
        simp at hlen
        omega
      rw [exceptFoldlM] at h
      set k := 2 + rng.pauseLenSeed p.1 % 3 with hk
      have hk2 : 2 ≤ k := by omega
      have hk4 : k ≤ 4 := by
        have : rng.pauseLenSeed p.1 % 3 < 3 := Nat.mod_lt _ (by norm_num)
        omega
      have hpos1 : 1 ≤ p.2 + off := by omega
      have hpos2 : p.2 + off < cur.length := by omega
      cases hg : pyListGet cur ((p.2 : ℤ) + (off : ℤ)) with
      | error e =>
          rw [show pauseStep rng (cur, off) p = Except.error e by
            unfold pauseStep
            rw [hg, except_error_bind]] at h
          simp at h
      | ok pp =>
          rw [show pauseStep rng (cur, off) p
              = Except.ok (insertKTimes pp (p.2 + off) k cur, off + k) by
            unfold pauseStep
            rw [hg, except_ok_bind]] at h
          have hh2 : (insertKTimes pp (p.2 + off) k cur).head? = pts.head? := by
            rw [insertKTimes_head? pp hpos1 k hcurne]
            exact hh
          have hl2 : (insertKTimes pp (p.2 + off) k cur).getLast? = pts.getLast? := by
            rw [insertKTimes_getLast? pp k hpos2]
            exact hl
          have hlen2 : (insertKTimes pp (p.2 + off) k cur).length
              = pts.length + (off + k) := by
            rw [insertKTimes_length]
            omega
          have := ih (insertKTimes pp (p.2 + off) k cur) (off + k) fin
            (fun q hq => hmem q (by simp [hq])) hh2 hl2 hlen2 h
          refine ⟨this.1, this.2.1, this.2.2.1, by omega, ?_⟩
          have := this.2.2.2.2
          simp only [List.length_cons]
          omega

theorem add_pause_spec {rng : CurveRng} {pts : List Point} {distance : ℚ}
    {r : List Point} (h : add_pause_patterns rng pts distance = Except.ok r) :
    r.head? = pts.head? ∧ r.getLast? = pts.getLast? ∧
      pts.length ≤ r.length ∧ r.length ≤ pts.length + 8 := by
  simp only [add_pause_patterns] at h
  by_cases hskip : distance < 300 ∨ pts.length < 10
  · rw [if_pos hskip] at h
    simp only [Except.ok.injEq] at h
    rw [← h]
    exact ⟨rfl, rfl, le_refl _, by omega⟩
  · rw [if_neg hskip] at h
    push_neg at hskip
    have hlen10 : 10 ≤ pts.length := by omega
    set num : ℕ := if distance < 500 then ([0, 1].getD rng.pauseChoice 0)
      else ([1, 2].getD rng.pauseChoice 0) with hnum
    have hnum2 : num ≤ 2 := by
      rw [hnum]
      rcases rng.pauseChoice with ⟨v, hv⟩
      interval_cases v <;> split_ifs <;> simp
    by_cases hz : num = 0
    · rw [if_pos hz] at h
      simp only [Except.ok.injEq] at h
      rw [← h]
      exact ⟨rfl, rfl, le_refl _, by omega⟩
    · rw [if_neg hz] at h
      set ss : ℤ := pyInt ((pts.length : ℚ) * (1/10)) with hss
      set se : ℤ := pyInt ((pts.length : ℚ) * (4/5)) with hse
      by_cases hses : se ≤ ss
      · rw [if_pos hses] at h
        simp only [Except.ok.injEq] at h
        rw [← h]
        exact ⟨rfl, rfl, le_refl _, by omega⟩
      · rw [if_neg hses] at h
        have hss1 : 1 ≤ ss := by
          rw [hss, pyInt_of_nonneg (by positivity)]
          refine Int.le_floor.mpr ?_
          have : (10 : ℚ) ≤ (pts.length : ℚ) := by exact_mod_cast hlen10
          push_cast
          linarith
        have hse2 : se + 2 ≤ (pts.length : ℤ) := by
          rw [hse, pyInt_of_nonneg (by positivity)]
          have h1 : ((pts.length : ℚ) * (4/5)) ≤ (pts.length : ℚ) - 2 := by
            have : (10 : ℚ) ≤ (pts.length : ℚ) := by exact_mod_cast hlen10
            linarith
          have h2 := Int.floor_le_floor h1
          have h3 : ⌊(pts.length : ℚ) - 2⌋ = (pts.length : ℤ) - 2 := by
            rw [show (pts.length : ℚ) - 2 = (((pts.length : ℤ) - 2 : ℤ) : ℚ) by push_cast; ring]
            exact Int.floor_intCast _
          omega
        set idxs := sortNat ((List.range num).map
          (fun j => (ss + rng.sampleSeed j % (se - ss)).toNat)) with hidxs
        have hmemidx : ∀ e ∈ idxs, 1 ≤ e ∧ e + 3 ≤ pts.length := by
          intro e he
          rw [hidxs, mem_sortNat] at he
          rcases List.mem_map.mp he with ⟨j, _, hje⟩
          have hmod1 : 0 ≤ rng.sampleSeed j % (se - ss) :=
            Int.emod_nonneg _ (by omega)
          have hmod2 : rng.sampleSeed j % (se - ss) < se - ss :=
            Int.emod_lt_of_pos _ (by omega)
          rw [← hje]
          omega
        cases hf : exceptFoldlM (pauseStep rng) (pts, 0) idxs.enum with
        | error e =>
            rw [hf, except_error_bind] at h
            simp at h
        | ok fin =>
            rw [hf, except_ok_bind] at h
            simp only [Except.ok.injEq] at h
            have hfold := pauseFold_spec rng pts idxs.enum pts 0 fin
              (fun p hp => hmemidx p.2 (snd_mem_of_mem_enum hp)) rfl rfl (by omega) hf
            have hidxlen : idxs.enum.length ≤ 2 := by
              rw [List.enum_length, hidxs]
              have hsl : (sortNat ((List.range num).map
                  (fun j => (ss + rng.sampleSeed j % (se - ss)).toNat))).length
                  = num := by
                have hsperm : ∀ (l : List ℕ), (sortNat l).length = l.length := by
                  intro l
                  induction l with
                  | nil => rfl
                  | cons a t iht =>
                      rw [sortNat]
                      have hins : ∀ (b : ℕ) (m : List ℕ),
                          (insertSorted b m).length = m.length + 1 := by
                        intro b m
                        induction m with
                        | nil => rfl
                        | cons c mt ihm =>
                            rw [insertSorted]
                            split_ifs <;> simp [ihm]
                      rw [hins, iht]
                      simp
                rw [hsperm]
                simp
              omega
            rw [← h]
            refine ⟨hfold.1, hfold.2.1, by omega, ?_⟩
            have h1 := hfold.2.2.1
            have h2 := hfold.2.2.2.2
            omega

end HumanizeMouseTrajectory

theorem except_bind_ok_iff {x : Except PyErr α} {f : α → Except PyErr β} {b : β} :
    (x >>= f) = Except.ok b ↔ ∃ a, x = Except.ok a ∧ f a = Except.ok b := by
  cases x with
  | error e =>
      rw [except_error_bind]
      simp
  | ok a =>
      rw [except_ok_bind]
      simp

namespace HumanizeMouseTrajectory

theorem generate_curve_ok_spec {o : RealOracles} {rng : CurveRng}
    {fromPt toPt : Point} {kw : GenKwargs} {tr : List Point}
    (h : generate_curve o rng fromPt toPt kw = Except.ok tr) :
    tr ≠ [] ∧ tr.head? = some fromPt ∧ 2 ≤ tr.length ∧
      tr.length ≤ kw.effTargetPoints.toNat + 9 ∧
      (4 ≤ kw.effTargetPoints → tr.getLast? = some toPt) := by
  simp only [generate_curve] at h
  rw [except_bind_ok_iff] at h
  rcases h with ⟨knots, _, h⟩
  rw [except_bind_ok_iff] at h
  rcases h with ⟨ps, hps, h⟩
  rcases generate_points_spec fromPt toPt knots with ⟨ps2, hps2, hph, hpl, hplen⟩
  rw [hps2] at hps
  simp only [Except.ok.injEq] at hps
  subst hps
  rw [except_bind_ok_iff] at h
  rcases h with ⟨ds2, hd, h⟩
  rw [except_bind_ok_iff] at h
  rcases h with ⟨ts3, ht, h⟩
  have hdspec := distort_points_spec (by omega) hd
  have htspec := tween_points_spec (by omega) ht
  rcases htspec with ⟨htp2, htlen, hthead, htlast⟩
  have hts2 : 2 ≤ ts3.length := by omega
  have hover := add_overshoot_spec rng fromPt toPt
    (|o.sqrtO ((toPt.1 - fromPt.1) ^ 2 + (toPt.2 - fromPt.2) ^ 2)|)
    kw.effTargetSize hts2
  rcases hover with ⟨hoh, hol, holen1, holen2⟩
  have hpause := add_pause_spec h
  rcases hpause with ⟨hqh, hql, hqlen1, hqlen2⟩
  have hhead : tr.head? = some fromPt := by
    rw [hqh, hoh, hthead, hdspec.1, hph]
  have hlen2 : 2 ≤ tr.length := by omega
  refine ⟨?_, hhead, hlen2, ?_, ?_⟩
  · intro hc
    rw [hc] at hlen2
    simp at hlen2
  · omega
  · intro h4
    rw [hql, hol, htlast h4, hdspec.2.1, hpl]

end HumanizeMouseTrajectory

/-! The claims. -/

/-- C1: the parameter selector's chosen easing is forwarded to
HumanizeMouseTrajectory under the keyword tween by both high-level call
sites (SystemCursor._generate_human_curve and
WebAdjuster._get_or_generate_curve), but generate_curve reads the keyword
tweening; hence the easing applied in the tween step is always the default
pytweening.easeOutQuad, never the selector's uniform draw from the
13-easing pool — contradicting the claim (the default differs from, e.g.,
the pool member linear). -/
theorem claim_C1 :
    ∀ (obx oby : ℚ) (kc : ℤ) (dm ds df : ℚ) (tw : ℚ → ℚ) (tp : ℤ),
      (SystemCursor.curveKwargs obx oby kc dm ds df tw tp).effTween = easeOutQuadQ ∧
      (SystemCursor.curveKwargs obx oby kc dm ds df tw tp).tween = some tw ∧
      (WebAdjuster.curveKwargs obx oby kc dm ds df tw tp).effTween = easeOutQuadQ ∧
      (WebAdjuster.curveKwargs obx oby kc dm ds df tw tp).tween = some tw ∧
      easeOutQuadQ ≠ linearQ := by
  intro obx oby kc dm ds df tw tp
  refine ⟨rfl, rfl, rfl, rfl, ?_⟩
  intro heq
  have h2 := congrFun heq (1/2)
  norm_num [easeOutQuadQ, linearQ] at h2

/-- C4: for every draw of the random coefficients the computed duration is
clamped to [0.15, 3.0] seconds; it equals the clamp of the Fitts-Law form
a + b * log2(distance / width + 1) times the fatigue, repetition and
variability factors; and the effective target width is floored at 5 px
(any target_size at most 5 produces the same duration as 5). -/
theorem claim_C4 :
    ∀ (o : RealOracles) (ctx : SystemCursor.CursorContext) (now : ℚ)
      (fromPt toPt : Point) (ts aS bS vS : ℚ),
      (3/20 ≤ (SystemCursor.calculate_movement_duration o ctx now fromPt toPt ts aS bS vS).1
        ∧ (SystemCursor.calculate_movement_duration o ctx now fromPt toPt ts aS bS vS).1 ≤ 3) ∧
      (SystemCursor.calculate_movement_duration o ctx now fromPt toPt ts aS bS vS).1
        = max (3/20) (min ((pyUniform (2/25) (3/25) aS
              + pyUniform (3/25) (9/50) bS
                * o.log2O (|o.sqrtO ((toPt.1 - fromPt.1) ^ 2 + (toPt.2 - fromPt.2) ^ 2)|
                    / max ts 5 + 1))
            * (SystemCursor.get_fatigue_factor ctx now * SystemCursor.get_repetition_factor ctx)
            * pyUniform (3/4) (13/10) vS) 3) ∧
      (SystemCursor.calculate_movement_duration o ctx now fromPt toPt ts aS bS vS).1
        = (SystemCursor.calculate_movement_duration o ctx now fromPt toPt (max ts 5) aS bS vS).1 := by
  intro o ctx now fromPt toPt ts aS bS vS
  refine ⟨⟨le_max_left _ _, ?_⟩, rfl, ?_⟩
  · exact max_le (by norm_num) (min_le_right _ _)
  · simp only [SystemCursor.calculate_movement_duration]
    rw [max_assoc, max_self]

/-- C5: overshoot injection fires exactly when the RNG roll is below
min(0.4, (min(d/1000, 1) + max(0, (50 - target_size)/50)) / 2); when it
fires exactly one point equal to O + f·(D−O), with f drawn from
[1.03, 1.08), is inserted at index ⌊L·u⌋ with u drawn from [0.80, 0.90);
otherwise the point list is returned unchanged. -/
theorem claim_C5 :
    ∀ (rng : HumanizeMouseTrajectory.CurveRng) (fromPt toPt : Point)
      (pts : List Point) (distance ts : ℚ),
      HumanizeMouseTrajectory.add_overshoot_correction rng fromPt toPt pts distance ts
        = (if pyRandom rng.overshootRoll
              < min (2/5) ((min (distance / 1000) 1 + max 0 ((50 - ts) / 50)) / 2)
           then pts.take (pyInt ((pts.length : ℚ) * pyUniform (4/5) (9/10) rng.overshootU)).toNat
             ++ (fromPt.1 + pyUniform (103/100) (108/100) rng.overshootF * (toPt.1 - fromPt.1),
                 fromPt.2 + pyUniform (103/100) (108/100) rng.overshootF * (toPt.2 - fromPt.2))
             :: pts.drop (pyInt ((pts.length : ℚ) * pyUniform (4/5) (9/10) rng.overshootU)).toNat
           else pts) ∧
      4/5 ≤ pyUniform (4/5) (9/10) rng.overshootU ∧
      pyUniform (4/5) (9/10) rng.overshootU < 9/10 ∧
      103/100 ≤ pyUniform (103/100) (108/100) rng.overshootF ∧
      pyUniform (103/100) (108/100) rng.overshootF < 108/100 := by
  intro rng fromPt toPt pts distance ts
  refine ⟨?_, pyUniform_le (by norm_num) _, pyUniform_lt (by norm_num) _,
    pyUniform_le (by norm_num) _, pyUniform_lt (by norm_num) _⟩
  simp only [HumanizeMouseTrajectory.add_overshoot_correction]
  by_cases hfire : pyRandom rng.overshootRoll
      < min (2/5) ((min (distance / 1000) 1 + max 0 ((50 - ts) / 50)) / 2)
  · rw [if_pos hfire, if_pos hfire]
    have hu1 : (4:ℚ)/5 ≤ pyUniform (4/5) (9/10) rng.overshootU :=
      pyUniform_le (by norm_num) _
    have hnn : ¬(pyInt ((pts.length : ℚ) * pyUniform (4/5) (9/10) rng.overshootU) < 0) := by
      rw [pyInt_of_nonneg (by positivity)]
      simp only [not_lt]
      exact Int.floor_nonneg.mpr (by positivity)
    simp only [pyInsert]
    rw [if_neg hnn, pyInsertAux_eq_take_drop]
    have hpt : (toPt.1 + (toPt.1 - fromPt.1) * (pyUniform (103/100) (108/100) rng.overshootF - 1),
        toPt.2 + (toPt.2 - fromPt.2) * (pyUniform (103/100) (108/100) rng.overshootF - 1))
        = (fromPt.1 + pyUniform (103/100) (108/100) rng.overshootF * (toPt.1 - fromPt.1),
           fromPt.2 + pyUniform (103/100) (108/100) rng.overshootF * (toPt.2 - fromPt.2)) := by
      have hx : toPt.1 + (toPt.1 - fromPt.1) * (pyUniform (103/100) (108/100) rng.overshootF - 1)
          = fromPt.1 + pyUniform (103/100) (108/100) rng.overshootF * (toPt.1 - fromPt.1) := by
        ring
      have hy : toPt.2 + (toPt.2 - fromPt.2) * (pyUniform (103/100) (108/100) rng.overshootF - 1)
          = fromPt.2 + pyUniform (103/100) (108/100) rng.overshootF * (toPt.2 - fromPt.2) := by
        ring
      rw [hx, hy]
    rw [hpt]
  · rw [if_neg hfire, if_neg hfire]

theorem binomialCached_spec (c : BezierCalculator.BinomialCache) (n k : ℕ)
    (hc : BezierCalculator.CacheGood c) :
    (BezierCalculator.binomialCached c n k).1 = Nat.choose n k ∧
      BezierCalculator.CacheGood (BezierCalculator.binomialCached c n k).2 := by
  unfold BezierCalculator.binomialCached
  by_cases h1 : k > n
  · rw [if_pos h1]
    exact ⟨(Nat.choose_eq_zero_of_lt h1).symm, hc⟩
  · rw [if_neg h1]
    by_cases h2 : k = 0 ∨ k = n
    · rw [if_pos h2]
      refine ⟨?_, hc⟩
      rcases h2 with h2 | h2 <;> subst h2 <;> simp
    · rw [if_neg h2]
      push_neg at h2
      have hloop : BezierCalculator.binomialLoop n (min k (n - k)) = Nat.choose n k := by
        have hkn : k ≤ n := by omega
        by_cases h3 : k ≤ n - k
        · rw [min_eq_left h3, BezierCalculator.binomialLoop_eq_choose n k hkn]
        · rw [min_eq_right (by omega),
            BezierCalculator.binomialLoop_eq_choose n (n - k) (by omega),
            Nat.choose_symm hkn]
      cases hfind : BezierCalculator.cacheFind c (n, k) with
      | some v =>
          simp only [hfind]
          unfold BezierCalculator.cacheFind at hfind
          cases hfq : c.find? (fun e => e.1 = (n, k)) with
          | none => rw [hfq] at hfind; simp at hfind
          | some e =>
              rw [hfq] at hfind
              simp only [Option.some.injEq] at hfind
              have hpe := List.find?_some hfq
              have hkey : e.1 = (n, k) := by simpa using hpe
              have hmem := List.mem_of_find?_eq_some hfq
              have := hc e hmem
              rw [hkey] at this
              exact ⟨by rw [← hfind, this], hc⟩
      | none =>
          simp only [hfind]
          refine ⟨hloop, ?_⟩
          intro e he
          rcases List.mem_cons.mp he with he1 | he1
          · rw [he1]
            simpa using hloop
          · exact hc e he1

/-- C6: BezierCalculator.binomial(n, k) equals the reference binomial
coefficient Nat.choose n k for all 0 ≤ k ≤ n ≤ 20, and the cache-threaded
version agrees: with any correct cache the first call returns C(n, k) and
leaves the cache correct, and a repeated call (which hits the (n, k) cache
entry) returns C(n, k) again. -/
theorem claim_C6 (n k : ℕ) (c : BezierCalculator.BinomialCache)
    (h1 : k ≤ n) (h2 : n ≤ 20) (hc : BezierCalculator.CacheGood c) :
    BezierCalculator.binomial n k = Nat.choose n k ∧
    (BezierCalculator.binomialCached c n k).1 = Nat.choose n k ∧
    BezierCalculator.CacheGood (BezierCalculator.binomialCached c n k).2 ∧
    (BezierCalculator.binomialCached (BezierCalculator.binomialCached c n k).2 n k).1
      = Nat.choose n k := by
  have hs1 := binomialCached_spec c n k hc
  have hs2 := binomialCached_spec (BezierCalculator.binomialCached c n k).2 n k hs1.2
  exact ⟨BezierCalculator.binomial_eq_choose n k, hs1.1, hs1.2, hs2.1⟩

/-- C6 witness: n = 20, k = 10 with the empty cache. -/
theorem claim_C6_witness :
    BezierCalculator.binomial 20 10 = Nat.choose 20 10 ∧
    (BezierCalculator.binomialCached [] 20 10).1 = Nat.choose 20 10 ∧
    BezierCalculator.CacheGood (BezierCalculator.binomialCached [] 20 10).2 ∧
    (BezierCalculator.binomialCached (BezierCalculator.binomialCached [] 20 10).2 20 10).1
      = Nat.choose 20 10 :=
  claim_C6 20 10 [] (by norm_num) (by norm_num) (by intro e he; simp at he)

/-- C7: the repetition factor is 1.0 below three recorded movements or
three ring entries, else 0.85 / 0.92 / 1.0 according to the variance of
the recent target sizes exactly as the spec words it; and after four
completed moves to 12-px targets the fifth move's repetition factor is
0.85. -/
theorem claim_C7 :
    (∀ ctx : SystemCursor.CursorContext,
      SystemCursor.get_repetition_factor ctx = SystemCursor.specRepetitionFactor ctx) ∧
    ∀ (o : RealOracles) (t0 now : ℚ) (fromPt toPt : Point) (aS bS vS : ℚ),
      SystemCursor.get_repetition_factor
        ((SystemCursor.calculate_movement_duration o
          ((SystemCursor.calculate_movement_duration o
            ((SystemCursor.calculate_movement_duration o
              ((SystemCursor.calculate_movement_duration o
                (SystemCursor.CursorContext.init t0)
                now fromPt toPt 12 aS bS vS).2)
              now fromPt toPt 12 aS bS vS).2)
            now fromPt toPt 12 aS bS vS).2)
          now fromPt toPt 12 aS bS vS).2) = 17/20 := by
  constructor
  · intro ctx
    unfold SystemCursor.get_repetition_factor SystemCursor.specRepetitionFactor
    split_ifs with h1 h2 h3 h4 h5 <;> first | rfl | omega
  · intro o t0 now fromPt toPt aS bS vS
    simp only [SystemCursor.calculate_movement_duration, SystemCursor.record_movement,
      SystemCursor.CursorContext.init]
    norm_num [SystemCursor.get_repetition_factor]

/-- C8: calculate_absolute_offset validates each relative component into
[0, 1] (rejecting out-of-range input with a ValueError, the
InvalidArgument of the spec) and returns the floored pixel offsets
[⌊width·rx⌋, ⌊height·ry⌋]; relative_position [0.5, 0.5] on a 200×100
element whose rounded top-left is (300, 400) yields destination exactly
(400, 450); and the element branch of _calculate_destination only maps
over the offset result, so a rejection propagates unchanged — it is never
retried. -/
theorem claim_C8 :
    ∀ (w h rx ry : ℚ) (rect : Point) (el : CalculateAndRandomize.ElementSize)
      (bx bY : ℚ) (offs : List ℚ),
      (CalculateAndRandomize.calculate_absolute_offset ⟨w, h⟩ [rx, ry]
        = (if ¬(0 ≤ rx ∧ rx ≤ 1) then Except.error PyErr.valueError
           else if ¬(0 ≤ ry ∧ ry ≤ 1) then Except.error PyErr.valueError
           else if w < 0 ∨ h < 0 then Except.error PyErr.valueError
           else Except.ok [⌊w * rx⌋, ⌊h * ry⌋])) ∧
      (WebAdjuster.calculate_destination (300, 400) ⟨200, 100⟩ bx bY (some [1/2, 1/2])
        = Except.ok (400, 450)) ∧
      (WebAdjuster.calculate_destination rect el bx bY (some offs)
        = (CalculateAndRandomize.calculate_absolute_offset el offs).map
            (fun l => (rect.1 + (l.getD 0 0 : ℚ), rect.2 + (l.getD 1 0 : ℚ)))) := by
  intro w h rx ry rect el bx bY offs
  refine ⟨?_, ?_, rfl⟩
  · unfold CalculateAndRandomize.calculate_absolute_offset
    rw [if_neg (by simp)]
    simp only [List.getD_cons_zero, List.getD_cons_succ]
    split_ifs with h1 h2 h3
    all_goals try rfl
    push_neg at h1 h2 h3
    rw [pyInt_of_nonneg (mul_nonneg h3.1 h1.1),
      pyInt_of_nonneg (mul_nonneg h3.2 h2.1)]
  · unfold WebAdjuster.calculate_destination
    norm_num [CalculateAndRandomize.calculate_absolute_offset, pyInt, Except.map]

/-- C10: idle_jitter's validation accepts every positive duration, but for
any duration strictly between 0 and 0.1 seconds the micro-movement count
int(duration · 10) is 0, so computing the per-iteration interval divides
by zero and the call fails with ZeroDivisionError instead of jittering. -/
theorem claim_C10 :
    ∀ d i : ℚ, 0 < d → d < 1/10 → 0 < i →
      SystemCursor.idle_jitter d i = Except.error PyErr.zeroDivisionError := by
  intro d i hd hdu hi
  unfold SystemCursor.idle_jitter
  rw [if_neg (by linarith), if_neg (by linarith)]
  have hiter : pyInt (d * 10) = 0 := by
    rw [pyInt_of_nonneg (by positivity)]
    rw [Int.floor_eq_zero_iff.mpr]
    rw [Set.mem_Ico]
    constructor
    · positivity
    · linarith
  rw [hiter]
  simp [pydiv, except_error_bind]

/-- C10 witness: duration 0.05 s with intensity 1. -/
theorem claim_C10_witness :
    SystemCursor.idle_jitter (1/20) 1 = Except.error PyErr.zeroDivisionError ∧
    (0:ℚ) < 1/20 ∧ (1:ℚ)/20 < 1/10 ∧ (0:ℚ) < 1 :=
  ⟨claim_C10 (1/20) 1 (by norm_num) (by norm_num) (by norm_num),
    by norm_num, by norm_num, by norm_num⟩

theorem move_to_traj (o : RealOracles) (pool : Fin 13 → ℚ → ℚ)
    (prng : CalculateAndRandomize.ParamRng)
    (crng : HumanizeMouseTrajectory.CurveRng) (w h : ℚ) (fromPt point : Point)
    (duration : Option ℚ) (steady : Bool) (ts : ℚ)
    (ctx : SystemCursor.CursorContext) (now aS bS vS : ℚ) :
    SystemCursor.trajOf (SystemCursor.move_to o pool prng crng w h fromPt point
        duration steady ts ctx now aS bS vS)
      = SystemCursor.generate_human_curve o pool prng crng w h fromPt point steady := by
  unfold SystemCursor.move_to SystemCursor.trajOf
  cases hc : SystemCursor.generate_human_curve o pool prng crng w h fromPt point steady with
  | error e =>
      rw [except_error_bind]
      rfl
  | ok curve =>
      rw [except_ok_bind]
      cases duration <;> rfl


/-- C9: for a fixed RNG state the trajectory produced by
SystemCursor.move_to (and click_on) is identical for any two caller-supplied
target_size values: the kwargs built by the curve path never carry
target_size, so the overshoot step always uses its internal default of 20,
and target_size only enters the duration model. -/
theorem claim_C9 :
    ∀ (o : RealOracles) (pool : Fin 13 → ℚ → ℚ)
      (prng : CalculateAndRandomize.ParamRng)
      (crng : HumanizeMouseTrajectory.CurveRng) (w h : ℚ) (fromPt point : Point)
      (duration : Option ℚ) (steady : Bool) (ts1 ts2 : ℚ)
      (ctx : SystemCursor.CursorContext) (now aS bS vS : ℚ)
      (clicks : ℤ) (cd : ℚ),
      SystemCursor.trajOf (SystemCursor.move_to o pool prng crng w h fromPt point
          duration steady ts1 ctx now aS bS vS)
        = SystemCursor.trajOf (SystemCursor.move_to o pool prng crng w h fromPt point
          duration steady ts2 ctx now aS bS vS) ∧
      SystemCursor.trajOf (SystemCursor.click_on o pool prng crng w h fromPt point
          clicks cd steady ts1 ctx now aS bS vS)
        = SystemCursor.trajOf (SystemCursor.click_on o pool prng crng w h fromPt point
          clicks cd steady ts2 ctx now aS bS vS) ∧
      ∀ (obx oby : ℚ) (kc : ℤ) (dm ds df : ℚ) (tw : ℚ → ℚ) (tp : ℤ),
        (SystemCursor.curveKwargs obx oby kc dm ds df tw tp).effTargetSize = 20 ∧
        (SystemCursor.curveKwargs obx oby kc dm ds df tw tp).target_size = none := by
  intro o pool prng crng w h fromPt point duration steady ts1 ts2 ctx now aS bS vS clicks cd
  refine ⟨?_, ?_, fun _ _ _ _ _ _ _ _ => ⟨rfl, rfl⟩⟩
  · rw [move_to_traj, move_to_traj]
  · unfold SystemCursor.click_on
    by_cases hcl : clicks < 1
    · rw [if_pos hcl, if_pos hcl]
    · rw [if_neg hcl, if_neg hcl]
      by_cases hcd : cd < 0
      · rw [if_pos hcd, if_pos hcd]
      · rw [if_neg hcd, if_neg hcd]
        rw [move_to_traj, move_to_traj]

/-- C2 (amended): for every valid input (numeric origin and destination,
integer knots_count ≥ 0, distortion_frequency in [0, 1], integer
target_points ≥ 2) any trajectory returned by
HumanizeMouseTrajectory.generate_curve is non-empty, its first point equals
the origin, and its length is at least 2 and at most
target_points + 8 (pause duplicates) + 1 (overshoot point); the last point
equals the destination provided target_points ≥ 4 — for target_points 2 or
3 the end-smoothing window (which is checked after the start window) scales
the final progress by ((target_points−1)/3)³ < 1 and the last emitted
sample is an interior curve point instead of the destination. -/
theorem claim_C2 {o : RealOracles} {rng : HumanizeMouseTrajectory.CurveRng}
    {fromPt toPt : Point} {kw : HumanizeMouseTrajectory.GenKwargs}
    {tr : List Point}
    (h : HumanizeMouseTrajectory.generate_curve o rng fromPt toPt kw = Except.ok tr) :
    tr ≠ [] ∧ tr.head? = some fromPt ∧ 2 ≤ tr.length ∧
      tr.length ≤ kw.effTargetPoints.toNat + 8 + 1 ∧
      (4 ≤ kw.effTargetPoints → tr.getLast? = some toPt) := by
  have hs := HumanizeMouseTrajectory.generate_curve_ok_spec h
  exact ⟨hs.1, hs.2.1, hs.2.2.1,
    by have := hs.2.2.2.1; omega, hs.2.2.2.2⟩

/-- C2 counterexample: with the fully valid input knots_count = 0,
distortion_frequency = 0 and target_points = 2 ≥ 2, origin (1, 2) and
destination (5, 2), generate_curve returns [(1, 2), (1, 2)] — its last
point is the origin, not the destination (5, 2), refuting the claim as
stated for target_points < 4. -/
theorem claim_C2_counterexample :
    HumanizeMouseTrajectory.generate_curve ⟨fun _ => 4, fun _ => 2, id, id⟩
      { overshootRoll := 1/2 } (1, 2) (5, 2)
      { knots_count := some 0, distortion_frequency := some 0, target_points := some 2 }
      = Except.ok [(1, 2), (1, 2)] ∧
    ([(1, 2), (1, 2)] : List Point).getLast? ≠ some ((5 : ℚ), (2 : ℚ)) := by
  constructor
  · have h1 : HumanizeMouseTrajectory.generate_internal_knots
        ({ overshootRoll := 1/2 } : HumanizeMouseTrajectory.CurveRng)
        (-79) 85 (-78) 82 0 = Except.ok [] := by
      norm_num [HumanizeMouseTrajectory.generate_internal_knots, pyUniform, pyRandom,
        pyInt, Int.fract, Int.ceil_neg, except_ok_bind]
    have h2 : HumanizeMouseTrajectory.generate_points (1, 2) (5, 2) ([] : List Point)
        = Except.ok [(1,2), (7/3,2), (11/3,2), (5,2)] := by
      norm_num [HumanizeMouseTrajectory.generate_points,
        BezierCalculator.calculate_points_in_curve, pyInt, List.range_succ,
        BezierCalculator.bernsteinAt, BezierCalculator.bernstein_polynomial_point,
        BezierCalculator.binomial, BezierCalculator.binomialLoop,
        Finset.sum_range_succ, show (4:ℤ).toNat = 4 from rfl]
    have h3 : HumanizeMouseTrajectory.distort_points ⟨fun _ => 4, fun _ => 2, id, id⟩
        ({ overshootRoll := 1/2 } : HumanizeMouseTrajectory.CurveRng)
        [(1,2), (7/3,2), (11/3,2), (5,2)] 1 1 0
        = Except.ok [(1,2), (7/3,2), (11/3,2), (5,2)] := by
      norm_num [HumanizeMouseTrajectory.distort_points,
        HumanizeMouseTrajectory.distortOne, pyRandom, Int.fract, exceptMapM,
        List.range_succ, except_ok_bind]
    have h4 : HumanizeMouseTrajectory.tween_points ⟨fun _ => 4, fun _ => 2, id, id⟩
        (1, 2) (5, 2) [(1,2), (7/3,2), (11/3,2), (5,2)] easeOutQuadQ 2
        = Except.ok [(1,2), (1,2)] := by
      norm_num [HumanizeMouseTrajectory.tween_points,
        HumanizeMouseTrajectory.tweenOne, pyListGet, pyInt, easeOutQuadQ,
        exceptMapM, List.range_succ, except_ok_bind]
    have h5 : HumanizeMouseTrajectory.add_overshoot_correction
        ({ overshootRoll := 1/2 } : HumanizeMouseTrajectory.CurveRng) (1, 2) (5, 2)
        [(1,2), (1,2)] 4 20 = [(1,2), (1,2)] := by
      norm_num [HumanizeMouseTrajectory.add_overshoot_correction, pyRandom, Int.fract]
    have h6 : HumanizeMouseTrajectory.add_pause_patterns
        ({ overshootRoll := 1/2 } : HumanizeMouseTrajectory.CurveRng) [(1,2), (1,2)] 4
        = Except.ok [(1,2), (1,2)] := by
      norm_num [HumanizeMouseTrajectory.add_pause_patterns]
    simp only [HumanizeMouseTrajectory.generate_curve,
      HumanizeMouseTrajectory.GenKwargs.effTween,
      HumanizeMouseTrajectory.GenKwargs.effTargetPoints,
      HumanizeMouseTrajectory.GenKwargs.effTargetSize, Option.getD_some, Option.getD_none]
    norm_num
    rw [h1, except_ok_bind, h2, except_ok_bind, h3, except_ok_bind, h4, except_ok_bind]
    rw [h5, h6]
  · simp only [List.getLast?, ne_eq, Option.some.injEq, Prod.mk.injEq]
    norm_num

/-- C2 witness: a concrete valid run with target_points = 4; the returned
trajectory satisfies every invariant of the amended claim, including the
last point being the destination. -/
theorem claim_C2_witness :
    HumanizeMouseTrajectory.generate_curve ⟨fun _ => 4, fun _ => 2, id, id⟩
      { overshootRoll := 1/2 } (1, 2) (3, 2)
      { knots_count := some 0, distortion_frequency := some 0, target_points := some 4 }
      = Except.ok [(1, 2), (1, 2), (1, 2), (3, 2)] ∧
    ([(1, 2), (1, 2), (1, 2), (3, 2)] : List Point) ≠ [] ∧
    ([(1, 2), (1, 2), (1, 2), (3, 2)] : List Point).head? = some (1, 2) ∧
    2 ≤ ([(1, 2), (1, 2), (1, 2), (3, 2)] : List Point).length ∧
    ([(1, 2), (1, 2), (1, 2), (3, 2)] : List Point).length ≤ 13 ∧
    ([(1, 2), (1, 2), (1, 2), (3, 2)] : List Point).getLast? = some (3, 2) := by
  have h1 : HumanizeMouseTrajectory.generate_internal_knots
      ({ overshootRoll := 1/2 } : HumanizeMouseTrajectory.CurveRng)
      (-79) 83 (-78) 82 0 = Except.ok [] := by
    norm_num [HumanizeMouseTrajectory.generate_internal_knots, pyUniform, pyRandom,
      pyInt, Int.fract, Int.ceil_neg, except_ok_bind]
  have h2 : HumanizeMouseTrajectory.generate_points (1, 2) (3, 2) ([] : List Point)
      = Except.ok [(1,2), (3,2)] := by
    norm_num [HumanizeMouseTrajectory.generate_points,
      BezierCalculator.calculate_points_in_curve, pyInt, List.range_succ,
      BezierCalculator.bernsteinAt, BezierCalculator.bernstein_polynomial_point,
      BezierCalculator.binomial, BezierCalculator.binomialLoop,
      Finset.sum_range_succ, show (2:ℤ).toNat = 2 from rfl]
  have h3 : HumanizeMouseTrajectory.distort_points ⟨fun _ => 4, fun _ => 2, id, id⟩
      ({ overshootRoll := 1/2 } : HumanizeMouseTrajectory.CurveRng)
      [(1,2), (3,2)] 1 1 0 = Except.ok [(1,2), (3,2)] := by
    norm_num [HumanizeMouseTrajectory.distort_points,
      HumanizeMouseTrajectory.distortOne, pyRandom, Int.fract, exceptMapM,
      List.range_succ, except_ok_bind]
  have h4 : HumanizeMouseTrajectory.tween_points ⟨fun _ => 4, fun _ => 2, id, id⟩
      (1, 2) (3, 2) [(1,2), (3,2)] easeOutQuadQ 4
      = Except.ok [(1,2), (1,2), (1,2), (3,2)] := by
    norm_num [HumanizeMouseTrajectory.tween_points,
      HumanizeMouseTrajectory.tweenOne, pyListGet, pyInt, easeOutQuadQ,
      exceptMapM, List.range_succ, except_ok_bind]
  have h5 : HumanizeMouseTrajectory.add_overshoot_correction
      ({ overshootRoll := 1/2 } : HumanizeMouseTrajectory.CurveRng) (1, 2) (3, 2)
      [(1,2), (1,2), (1,2), (3,2)] 4 20 = [(1,2), (1,2), (1,2), (3,2)] := by
    norm_num [HumanizeMouseTrajectory.add_overshoot_correction, pyRandom, Int.fract]
  have h6 : HumanizeMouseTrajectory.add_pause_patterns
      ({ overshootRoll := 1/2 } : HumanizeMouseTrajectory.CurveRng)
      [(1,2), (1,2), (1,2), (3,2)] 4 = Except.ok [(1,2), (1,2), (1,2), (3,2)] := by
    norm_num [HumanizeMouseTrajectory.add_pause_patterns]
  have hok : HumanizeMouseTrajectory.generate_curve ⟨fun _ => 4, fun _ => 2, id, id⟩
      { overshootRoll := 1/2 } (1, 2) (3, 2)
      { knots_count := some 0, distortion_frequency := some 0, target_points := some 4 }
      = Except.ok [(1, 2), (1, 2), (1, 2), (3, 2)] := by
    simp only [HumanizeMouseTrajectory.generate_curve,
      HumanizeMouseTrajectory.GenKwargs.effTween,
      HumanizeMouseTrajectory.GenKwargs.effTargetPoints,
      HumanizeMouseTrajectory.GenKwargs.effTargetSize, Option.getD_some, Option.getD_none]
    norm_num
    rw [h1, except_ok_bind, h2, except_ok_bind, h3, except_ok_bind, h4, except_ok_bind]
    rw [h5, h6]
  have hc := claim_C2 hok
  refine ⟨hok, hc.1, hc.2.1, hc.2.2.1, ?_,
    hc.2.2.2.2 (by norm_num [HumanizeMouseTrajectory.GenKwargs.effTargetPoints])⟩
  have hlen := hc.2.2.2.1
  simpa [HumanizeMouseTrajectory.GenKwargs.effTargetPoints,
    show (4:ℤ).toNat = 4 from rfl] using hlen

theorem ceil_eq_of {q : ℚ} {z : ℤ} (h1 : (z : ℚ) - 1 < q) (h2 : q ≤ (z : ℚ)) :
    ⌈q⌉ = z :=
  Int.ceil_eq_iff.mpr ⟨h1, h2⟩

theorem pickOffset_bounds :
    ∀ (r : Fin 3) (e : Fin 2),
      20 ≤ CalculateAndRandomize.pickOffset r e ∧
        CalculateAndRandomize.pickOffset r e ≤ 100 := by
  decide

theorem getD_int_bounds {l : List ℤ} (hl : ∀ x ∈ l, 1 ≤ x ∧ x ≤ 6) (i : ℕ) :
    1 ≤ l.getD i 1 ∧ l.getD i 1 ≤ 6 := by
  induction l generalizing i with
  | nil => simp
  | cons a t ih =>
      cases i with
      | zero => simpa using hl a (by simp)
      | succ j =>
          simp only [List.getD_cons_succ]
          exact ih (fun x hx => hl x (by simp [hx])) j

theorem preKnots_bounds (o : RealOracles) (rng : CalculateAndRandomize.ParamRng)
    (origin dest : Point) :
    1 ≤ CalculateAndRandomize.preKnots o rng origin dest ∧
      CalculateAndRandomize.preKnots o rng origin dest ≤ 6 := by
  simp only [CalculateAndRandomize.preKnots, CalculateAndRandomize.knotOptions]
  split_ifs <;> exact getD_int_bounds (by decide) _

theorem edge_proximity_spec (p : Point) {w h : ℚ} (hw : 0 < w) (hh : 0 < h) :
    ∃ e, CalculateAndRandomize.calculate_edge_proximity p w h = Except.ok e ∧
      0 ≤ e ∧ e ≤ 1 ∧ (CalculateAndRandomize.nearEdge p w h → 9/10 ≤ e) := by
  unfold CalculateAndRandomize.calculate_edge_proximity
  rw [if_neg (by linarith), if_neg (by linarith)]
  refine ⟨_, rfl, le_max_left _ _, max_le (by norm_num) (min_le_right _ _), ?_⟩
  intro hne
  have hkey : min (min (p.1 / w) ((w - p.1) / w) * 2)
      (min (p.2 / h) ((h - p.2) / h) * 2) ≤ 1/10 := by
    rcases hne with hx | hy
    · refine le_trans (min_le_left _ _) ?_
      have hdiv : min (p.1 / w) ((w - p.1) / w) = min p.1 (w - p.1) / w :=
        min_div_div_right (le_of_lt hw) p.1 (w - p.1)
      rw [hdiv]
      have hle : min p.1 (w - p.1) / w ≤ 1/20 := by
        rw [div_le_iff hw]
        calc min p.1 (w - p.1) ≤ w * (1/20) := hx
        _ = 1/20 * w := by ring
      linarith
    · refine le_trans (min_le_right _ _) ?_
      have hdiv : min (p.2 / h) ((h - p.2) / h) = min p.2 (h - p.2) / h :=
        min_div_div_right (le_of_lt hh) p.2 (h - p.2)
      rw [hdiv]
      have hle : min p.2 (h - p.2) / h ≤ 1/20 := by
        rw [div_le_iff hh]
        calc min p.2 (h - p.2) ≤ h * (1/20) := hy
        _ = 1/20 * h := by ring
      linarith
  refine le_trans ?_ (le_max_right _ _)
  exact le_min (by linarith) (by norm_num)

theorem floor_le_ceil_of (n : ℤ) {a b : ℚ} (h1 : a < (n : ℚ) + 1)
    (h2 : (n : ℚ) - 1 < b) : ⌊a⌋ ≤ ⌈b⌉ := by
  have hfa : ⌊a⌋ < n + 1 := Int.floor_lt.mpr (by push_cast; linarith)
  have hcb : n - 1 < ⌈b⌉ := Int.lt_ceil.mpr (by push_cast; linarith)
  omega

theorem offset_damp_le {b : ℤ} {me : ℚ} (hb : 0 ≤ (b : ℚ)) (h9 : 9/10 ≤ me)
    (h1 : me ≤ 1) :
    pyInt ((b : ℚ) * (1 - me * (7/10))) ≤ ⌊(b : ℚ) * (37/100)⌋ := by
  have hf0 : (0 : ℚ) ≤ 1 - me * (7/10) := by linarith
  rw [pyInt_of_nonneg (mul_nonneg hb hf0)]
  exact Int.floor_le_floor (by nlinarith)

theorem knots_damp_le {k : ℤ} {me : ℚ} (hk1 : 1 ≤ k) (hk6 : k ≤ 6)
    (h9 : 9/10 ≤ me) (h1 : me ≤ 1) :
    max 1 (pyInt ((k : ℚ) * (1 - me * (1/2)))) ≤ ⌈(k : ℚ) * (1/2)⌉ := by
  have hkQ : (0 : ℚ) ≤ (k : ℚ) := by exact_mod_cast le_trans zero_le_one hk1
  have hkQ1 : (1 : ℚ) ≤ (k : ℚ) := by exact_mod_cast hk1
  have hf0 : (0 : ℚ) ≤ 1 - me * (1/2) := by linarith
  rw [pyInt_of_nonneg (mul_nonneg hkQ hf0)]
  have hfl : ⌊(k : ℚ) * (1 - me * (1/2))⌋ ≤ ⌊(k : ℚ) * (11/20)⌋ :=
    Int.floor_le_floor (by nlinarith)
  refine max_le ?_ (le_trans hfl ?_)
  · have hpos : (0 : ℚ) < (k : ℚ) * (1/2) := by nlinarith
    have := Int.ceil_pos.mpr hpos
    omega
  · interval_cases k
    · exact floor_le_ceil_of 0 (by push_cast; norm_num) (by push_cast; norm_num)
    · exact floor_le_ceil_of 1 (by push_cast; norm_num) (by push_cast; norm_num)
    · exact floor_le_ceil_of 1 (by push_cast; norm_num) (by push_cast; norm_num)
    · exact floor_le_ceil_of 2 (by push_cast; norm_num) (by push_cast; norm_num)
    · exact floor_le_ceil_of 2 (by push_cast; norm_num) (by push_cast; norm_num)
    · exact floor_le_ceil_of 3 (by push_cast; norm_num) (by push_cast; norm_num)

/-- C3 (corrected): when the origin or the destination lies within 5 % of a
viewport edge, generate_random_curve_parameters succeeds, the damped
knots_count is at most ⌈0.5·k⌉ for the pre-damping knot pick k, and each
damped offset boundary is at most ⌊0.37·b⌋ for its pre-damping pick b (the
spec's ⌈0.3·b⌉ bound on the offsets is too tight; see the
counterexample). -/
theorem claim_C3 (o : RealOracles) (pool : Fin 13 → ℚ → ℚ)
    (rng : CalculateAndRandomize.ParamRng) (w h : ℚ) (origin dest : Point)
    (hw : 0 < w) (hh : 0 < h)
    (hedge : CalculateAndRandomize.nearEdge origin w h ∨
      CalculateAndRandomize.nearEdge dest w h) :
    ∃ r, CalculateAndRandomize.generate_random_curve_parameters o pool rng
        w h origin dest = Except.ok r ∧
      r.knots_count ≤
        ⌈(CalculateAndRandomize.preKnots o rng origin dest : ℚ) * (1/2)⌉ ∧
      r.offset_boundary_x ≤
        ⌊(CalculateAndRandomize.preOffX rng : ℚ) * (37/100)⌋ ∧
      r.offset_boundary_y ≤
        ⌊(CalculateAndRandomize.preOffY rng : ℚ) * (37/100)⌋ := by
  obtain ⟨e1, he1, _, he1b, he1e⟩ := edge_proximity_spec origin hw hh
  obtain ⟨e2, he2, _, he2b, he2e⟩ := edge_proximity_spec dest hw hh
  have h9 : 9/10 ≤ max e1 e2 := by
    rcases hedge with hx | hy
    · exact le_trans (he1e hx) (le_max_left _ _)
    · exact le_trans (he2e hy) (le_max_right _ _)
  have h1 : max e1 e2 ≤ 1 := max_le he1b he2b
  have hbx : (0 : ℚ) ≤ (CalculateAndRandomize.preOffX rng : ℚ) := by
    have := (pickOffset_bounds rng.rangeSeedX rng.endSeedX).1
    exact_mod_cast le_trans (by norm_num) this
  have hby : (0 : ℚ) ≤ (CalculateAndRandomize.preOffY rng : ℚ) := by
    have := (pickOffset_bounds rng.rangeSeedY rng.endSeedY).1
    exact_mod_cast le_trans (by norm_num) this
  have hkc := preKnots_bounds o rng origin dest
  simp only [CalculateAndRandomize.generate_random_curve_parameters]
  rw [if_neg (not_le.mpr hw), if_neg (not_le.mpr hh), he1, except_ok_bind,
    he2, except_ok_bind]
  exact ⟨_, rfl, knots_damp_le hkc.1 hkc.2 h9 h1,
    offset_damp_le hbx h9 h1, offset_damp_le hby h9 h1⟩

/-- C3 counterexample: with the viewport 1000 x 1000, origin (49, 500)
within 5 % of the left edge, destination the centre, and a pre-damping
x offset pick of 100, the damped offset_boundary_x is 36, which exceeds
the spec's bound ⌈0.3·100⌉ = 30. -/
theorem claim_C3_counterexample :
    (0 : ℚ) < 1000 ∧
    CalculateAndRandomize.nearEdge (49, 500) (1000 : ℚ) 1000 ∧
    ∃ r, CalculateAndRandomize.generate_random_curve_parameters
        ⟨fun _ => 451, fun _ => 2, id, id⟩ (fun _ => easeOutQuadQ)
        { rangeSeedX := 2, endSeedX := 1 } 1000 1000 (49, 500) (500, 500)
        = Except.ok r ∧
      ¬ r.offset_boundary_x ≤
        ⌈(CalculateAndRandomize.preOffX { rangeSeedX := 2, endSeedX := 1 } :
          ℚ) * (3/10)⌉ := by
  refine ⟨by norm_num, ?_, ?_⟩
  · unfold CalculateAndRandomize.nearEdge
    left
    norm_num [min_def]
  · have hpe1 : CalculateAndRandomize.calculate_edge_proximity
        ((49 : ℚ), 500) 1000 1000 = Except.ok (451/500) := by
      simp only [CalculateAndRandomize.calculate_edge_proximity]
      rw [if_neg (by norm_num), if_neg (by norm_num)]
      norm_num [min_def, max_def]
    have hpe2 : CalculateAndRandomize.calculate_edge_proximity
        ((500 : ℚ), 500) 1000 1000 = Except.ok 0 := by
      simp only [CalculateAndRandomize.calculate_edge_proximity]
      rw [if_neg (by norm_num), if_neg (by norm_num)]
      norm_num [min_def, max_def]
    have hpre : CalculateAndRandomize.preOffX
        { rangeSeedX := 2, endSeedX := 1 } = 100 := rfl
    have hmax : max ((451 : ℚ)/500) 0 = 451/500 := max_eq_left (by norm_num)
    simp only [CalculateAndRandomize.generate_random_curve_parameters]
    rw [if_neg (by norm_num), if_neg (by norm_num), hpe1, except_ok_bind,
      hpe2, except_ok_bind]
    refine ⟨_, rfl, ?_⟩
    simp only [hpre, hmax]
    rw [show (⌈(((100 : ℤ)) : ℚ) * (3/10)⌉ : ℤ) = 30 from
      ceil_eq_of (by push_cast; norm_num) (by push_cast; norm_num)]
    rw [show pyInt ((((100 : ℤ)) : ℚ) * (1 - 451/500 * (7/10))) = 36 from by
      push_cast
      norm_num [pyInt]]
    decide

/-- C3 witness: the corrected bound instantiated at the 1000 x 1000
viewport with origin (49, 500) near the left edge. -/
theorem claim_C3_witness :
    ((0 : ℚ) < 1000 ∧
      CalculateAndRandomize.nearEdge (49, 500) (1000 : ℚ) 1000) ∧
    ∃ r, CalculateAndRandomize.generate_random_curve_parameters
        ⟨fun _ => 451, fun _ => 2, id, id⟩ (fun _ => easeOutQuadQ)
        { rangeSeedX := 2, endSeedX := 1 } 1000 1000 (49, 500) (500, 500)
        = Except.ok r ∧
      r.knots_count ≤
        ⌈(CalculateAndRandomize.preKnots ⟨fun _ => 451, fun _ => 2, id, id⟩
          { rangeSeedX := 2, endSeedX := 1 } (49, 500) (500, 500) : ℚ) *
          (1/2)⌉ ∧
      r.offset_boundary_x ≤
        ⌊(CalculateAndRandomize.preOffX { rangeSeedX := 2, endSeedX := 1 } :
          ℚ) * (37/100)⌋ ∧
      r.offset_boundary_y ≤
        ⌊(CalculateAndRandomize.preOffY { rangeSeedX := 2, endSeedX := 1 } :
          ℚ) * (37/100)⌋ :=
  ⟨⟨by norm_num, by
      unfold CalculateAndRandomize.nearEdge
      left
      norm_num [min_def]⟩,
    claim_C3 ⟨fun _ => 451, fun _ => 2, id, id⟩ (fun _ => easeOutQuadQ)
      { rangeSeedX := 2, endSeedX := 1 } 1000 1000 (49, 500) (500, 500)
      (by norm_num) (by norm_num)
      (Or.inl (by
        unfold CalculateAndRandomize.nearEdge
        left
        norm_num [min_def]))⟩
